import Mathlib

/-!
Shallow embedding of the `api-sequence-runner` core: the scenario runner
(`src/lib/index.js`, `ScenarioRunner`), the extractor engine
(`src/lib/extractor.js`, `Extractor`) and the validator engine
(`src/unnamed/part_001`, `Validator` / `validators`).

JavaScript values are modelled by the inductive `JsValue` (with a distinct
`undef` constructor, since the code distinguishes `undefined` from `null`),
JS objects by association lists in insertion order, thrown exceptions by
`Except String`, and the ambient clock (`Date.now()` /
`new Date().toISOString()`) by an explicit `Env` argument.
-/

namespace ApiSeqRunner

/-- Decimal value of a digit character list (the behavior of
`parseInt(s, 10)` on the all-digit strings the callers feed it). -/
def decimalValue (cs : List Char) : Nat :=
  cs.foldl (fun acc c => acc * 10 + (c.toNat - '0'.toNat)) 0

/-- ASCII lower-casing of one character (`toLowerCase` on the ASCII header
names the code handles). -/
def charToLower (c : Char) : Char :=
  if 'A' ≤ c ∧ c ≤ 'Z' then Char.ofNat (c.toNat + 32) else c

/-- ASCII lower-casing of a string. -/
def asciiToLower (s : String) : String :=
  String.mk (s.toList.map charToLower)

/-- `split(sep)` on character lists: JS `String.prototype.split` with a
single-character separator (the empty string splits to `[""]`). -/
def splitOnChar (sep : Char) : List Char → List (List Char)
  | [] => [[]]
  | c :: rest =>
      let r := splitOnChar sep rest
      if c = sep then [] :: r
      else
        match r with
        | [] => [[c]]
        | g :: gs => (c :: g) :: gs

/-- A JavaScript value as manipulated by the runner: `undefined`, `null`,
booleans, numbers (the code only computes with integers: statuses, lengths,
indices), strings, arrays and plain objects (fields in insertion order). -/
inductive JsValue where
  | undef : JsValue
  | null : JsValue
  | bool : Bool → JsValue
  | num : Int → JsValue
  | str : String → JsValue
  | arr : List JsValue → JsValue
  | obj : List (String × JsValue) → JsValue

namespace JsValue

/-- JS truthiness: `undefined`, `null`, `false`, `0` and `""` are falsy;
arrays and objects are always truthy. -/
def truthy : JsValue → Bool
  | .undef => false
  | .null => false
  | .bool b => b
  | .num n => n != 0
  | .str s => s ≠ ""
  | .arr _ => true
  | .obj _ => true

/-- Whether the value is `null` or `undefined` (the guard the source code
tests before dereferencing an intermediate path value). -/
def isNullish : JsValue → Bool
  | .undef => true
  | .null => true
  | _ => false

/-- Whether a string is a canonical array-index key: nonempty, all digits,
and no leading zero (JS exposes array elements under such property keys). -/
def isCanonicalIndex (s : String) : Bool :=
  let cs := s.toList
  !cs.isEmpty && cs.all Char.isDigit && (cs = ['0'] || cs.headD ' ' ≠ '0')

/-- JS property access `v[key]` for a non-nullish base value: object fields
by name, array elements by canonical numeric key plus `length`, string
`length`; every other access yields `undefined`.  (The callers below only
apply this after the source's own null/undefined guards.) -/
def getProp : JsValue → String → JsValue
  | .obj fields, key =>
      match fields.lookup key with
      | some v => v
      | none => .undef
  | .arr xs, key =>
      if key = "length" then .num xs.length
      else if isCanonicalIndex key then xs.getD (decimalValue key.toList) .undef
      else .undef
  | .str s, key => if key = "length" then .num s.length else .undef
  | _, _ => (.undef)

/-- Optional chaining `v?.[key]`: `undefined` when the base is nullish. -/
def getOpt (v : JsValue) (key : String) : JsValue :=
  if v.isNullish then .undef else v.getProp key

/-- JS strict equality `===` restricted to the comparisons the code performs:
structural on primitives; comparisons involving a freshly built array or
object are `false` (reference inequality). -/
def strictEq : JsValue → JsValue → Bool
  | .undef, .undef => true
  | .null, .null => true
  | .bool a, .bool b => a = b
  | .num a, .num b => a = b
  | .str a, .str b => a = b
  | _, _ => false

end JsValue

/-- JS object assignment `o[k] = v`: overwrite the existing binding in place
or append a new one, preserving insertion order. -/
def objAssign : List (String × JsValue) → String → JsValue → List (String × JsValue)
  | [], k, v => [(k, v)]
  | (k', v') :: rest, k, v =>
      if k' = k then (k', v) :: rest else (k', v') :: objAssign rest k v

/-- `Object.assign(target, source)`: assign every binding of `source` into
`target`, left to right. -/
def objAssignAll (target : List (String × JsValue)) (source : List (String × JsValue)) :
    List (String × JsValue) :=
  source.foldl (fun acc kv => objAssign acc kv.1 kv.2) target

/-- The keys of an association list, in order. -/
def objKeys (o : List (String × JsValue)) : List String := o.map Prod.fst

/-! ### Path resolver (`Extractor.extractByPath`, src/lib/extractor.js) -/

/-- Split a character list around its last `'['`: `some (before, after)`
with `before ++ '[' :: after` the input, or `none` if no `'['` occurs. -/
def splitAtLastOpen : List Char → Option (List Char × List Char)
  | [] => none
  | c :: rest =>
      match splitAtLastOpen rest with
      | some (b, a) => some (c :: b, a)
      | none => if c = '[' then some ([], rest) else none

/-- The array-index pattern `^(.+)\[(\d+)\]$` used by both `extractByPath`
and `getNestedValue`: a greedy `(.+)` forces the bracket pair to be the last
`'['` of the segment, which must be followed by digits only up to a final
`']'`, with a nonempty name before it. -/
def parseIndexSuffix (part : String) : Option (String × Nat) :=
  let cs := part.toList
  if cs.getLast? = some ']' then
    match splitAtLastOpen cs.dropLast with
    | some (before, idx) =>
        if !before.isEmpty && !idx.isEmpty && idx.all Char.isDigit then
          some (String.mk before, decimalValue idx)
        else none
    | none => none
  else none

/-- The segment loop of `extractByPath`: for each dot-separated part, return
`undefined` as soon as the current value is `null`/`undefined`; an indexed
segment `name[idx]` first reads the field `name` and returns `undefined`
when that value is not an array, otherwise indexes into it (out-of-range
reads give `undefined`, as in JS). -/
def walkPath : List String → JsValue → JsValue
  | [], cur => cur
  | part :: rest, cur =>
      if cur.isNullish then .undef
      else
        match parseIndexSuffix part with
        | some (name, idx) =>
            match cur.getProp name with
            | .arr xs => walkPath rest (xs.getD idx .undef)
            | _ => .undef
        | none => walkPath rest (cur.getProp part)

/-- The dot-split segments of a data path, with a leading literal `data`
segment skipped (so `data.id` and `id` resolve identically). -/
def dataPathParts (path : String) : List String :=
  let parts := (splitOnChar '.' path.toList).map String.mk
  if parts.headD "" = "data" then parts.drop 1 else parts

/-- `Extractor.extractByPath(path, response)`: special root paths `status`
and `statusText`, a `headers.` prefix resolved case-insensitively in the
header mapping, and otherwise a dot/index walk over `response.data`.  The
source wraps the body in a `try`/`catch` returning `undefined`; field reads
on a nullish response (the only throwing accesses) are therefore
`getOpt`. -/
def extractByPath (path : String) (response : JsValue) : JsValue :=
  if path = "status" then response.getOpt "status"
  else if path = "statusText" then response.getOpt "statusText"
  else if "headers.".toList.isPrefixOf path.toList then
    (response.getOpt "headers").getOpt (asciiToLower (String.mk (path.toList.drop 8)))
  else
    walkPath (dataPathParts path) (response.getOpt "data")

/-! ### `getNestedValue` (src/unnamed/part_001) — the validator's own
nested-path helper, distinct from `extractByPath`: no `data` skipping, no
header/status special cases, and falsy (not merely nullish) intermediates
stop the walk. -/

/-- One `reduce` step of `getNestedValue`: JS
`current && current[key] !== undefined ? current[key] : undefined`, with the
`name[idx]` branch reading `current && current[arrayKey]` and indexing only
arrays. -/
def getNestedStep (current : JsValue) (key : String) : JsValue :=
  match parseIndexSuffix key with
  | some (arrayKey, idx) =>
      let array := if current.truthy then current.getProp arrayKey else current
      match array with
      | .arr xs => xs.getD idx .undef
      | _ => .undef
  | none =>
      if current.truthy then
        match current.getProp key with
        | .undef => .undef
        | v => v
      else (.undef)

/-- `getNestedValue(obj, path)`: `undefined` on a falsy object or empty
path, otherwise the left fold of `getNestedStep` over the dot-split path. -/
def getNestedValue (obj : JsValue) (path : String) : JsValue :=
  if ¬ obj.truthy ∨ path = "" then .undef
  else (((splitOnChar '.' path.toList).map String.mk).foldl getNestedStep obj)

/-! ### JS string coercion and `JSON.stringify` -/

mutual
/-- JS implicit coercion `String(v)`, used when a context value is spliced
into a template string. -/
def jsToString : JsValue → String
  | .undef => "undefined"
  | .null => "null"
  | .bool b => if b then "true" else "false"
  | .num n => toString n
  | .str s => s
  | .arr xs => String.intercalate "," (jsToStringElems xs)
  | .obj _ => "[object Object]"

/-- `Array.prototype.toString`: elements joined by commas, with `null` and
`undefined` elements rendered as the empty string. -/
def jsToStringElems : List JsValue → List String
  | [] => []
  | .undef :: rest => "" :: jsToStringElems rest
  | .null :: rest => "" :: jsToStringElems rest
  | x :: rest => jsToString x :: jsToStringElems rest
end

/-- Hexadecimal digit. -/
def hexDigit (n : Nat) : Char :=
  if n < 10 then Char.ofNat ('0'.toNat + n) else Char.ofNat ('a'.toNat + n - 10)

/-- JSON escaping of one character. -/
def jsonEscapeChar (c : Char) : String :=
  if c = '"' then "\\\""
  else if c = '\\' then "\\\\"
  else if c = Char.ofNat 8 then "\\b"
  else if c = Char.ofNat 12 then "\\f"
  else if c = '\n' then "\\n"
  else if c = '\r' then "\\r"
  else if c = '\t' then "\\t"
  else if c.toNat < 32 then
    "\\u00" ++ String.mk [hexDigit (c.toNat / 16), hexDigit (c.toNat % 16)]
  else String.singleton c

/-- JSON escaping of a string body. -/
def jsonEscape (s : String) : String :=
  String.join (s.toList.map jsonEscapeChar)

mutual
/-- `JSON.stringify`: `none` models the JS result `undefined` (top-level
`undefined` input); object fields with `undefined` values are omitted and
`undefined` array elements serialize as `null`. -/
def jsonStringify : JsValue → Option String
  | .undef => none
  | .null => some "null"
  | .bool b => some (if b then "true" else "false")
  | .num n => some (toString n)
  | .str s => some ("\"" ++ jsonEscape s ++ "\"")
  | .arr xs => some ("[" ++ String.intercalate "," (jsonArrElems xs) ++ "]")
  | .obj fs => some ("\x7b" ++ String.intercalate "," (jsonObjFields fs) ++ "\x7d")

/-- Serialized array elements. -/
def jsonArrElems : List JsValue → List String
  | [] => []
  | x :: rest =>
      (match jsonStringify x with
       | some s => s
       | none => "null") :: jsonArrElems rest

/-- Serialized object fields (skipping `undefined`-valued ones). -/
def jsonObjFields : List (String × JsValue) → List String
  | [] => []
  | (k, v) :: rest =>
      match jsonStringify v with
      | some s => ("\"" ++ jsonEscape k ++ "\":" ++ s) :: jsonObjFields rest
      | none => jsonObjFields rest
end

/-! ### Variable substitution (`ScenarioRunner.substituteVariables`,
src/lib/index.js) -/

/-- A character of the placeholder identifier class `[A-Za-z0-9-_.]`. -/
def isIdentChar (c : Char) : Bool :=
  c.isAlpha || c.isDigit || c = '-' || c = '_' || c = '.'

/-- The global replace of `/\{([A-Za-z0-9-_.]+)\}/g`: scan left to right; at
each `'{'` try to read a maximal nonempty identifier run followed by `'}'`
(the class excludes `'}'`, so no shorter match can succeed).  A resolved key
splices `String(context[key])`; an unresolved key keeps the placeholder
verbatim.  In both cases scanning resumes after the matched text, never
inside the replacement. -/
def substChars (ctx : List (String × JsValue)) : List Char → List Char
  | [] => []
  | c :: rest =>
      if c = '{' then
        let ident := rest.takeWhile isIdentChar
        let after := rest.drop ident.length
        if ident ≠ [] ∧ after.headD ' ' = '}' then
          match ctx.lookup (String.mk ident) with
          | some v => (jsToString v).toList ++ substChars ctx (after.drop 1)
          | none => '{' :: (ident ++ '}' :: substChars ctx (after.drop 1))
        else c :: substChars ctx rest
      else c :: substChars ctx rest
  termination_by l => l.length
  decreasing_by
    all_goals simp_wf
    all_goals omega

/-- String-level substitution. -/
def substString (ctx : List (String × JsValue)) (s : String) : String :=
  String.mk (substChars ctx s.toList)

/-- The ambient environment read by impure library calls: `Date.now()` and
`new Date().toISOString()` at the moment of the call. -/
structure Env where
  now : Int
  iso : String

/-- A template value as fed to `substituteVariables`: a JS value that may
additionally contain deferred generator-call objects `{func, params}` (the
shape produced by the library's random-data extractors).  The `func` member
is a function of the ambient environment, modelling `Date.now()` /
`Math.random()` reads inside the generators; `params` is always an array
(arrays are truthy even when empty, so the shape check always fires).  The
library passes only plain data (domain strings, day counts) as `params`, so
they are modelled as `JsValue`s. -/
inductive TVal where
  | tundef : TVal
  | tnull : TVal
  | tbool : Bool → TVal
  | tnum : Int → TVal
  | tstr : String → TVal
  | tarr : List TVal → TVal
  | tobj : List (String × TVal) → TVal
  | tgen : (Env → List JsValue → TVal) → List JsValue → TVal

/-- JS truthiness of a template value (generator objects are objects, hence
truthy). -/
def TVal.truthy : TVal → Bool
  | .tundef => false
  | .tnull => false
  | .tbool b => b
  | .tnum n => n != 0
  | .tstr s => s ≠ ""
  | _ => true

mutual
/-- `ScenarioRunner.substituteVariables(obj, context)`: strings get the
placeholder replace; a `{func, params}` object is invoked in place (its
live value depends on the ambient environment); arrays and plain objects
recurse element-wise and key-wise; all other values pass through. -/
def substituteVariables (env : Env) (v : TVal) (ctx : List (String × JsValue)) : TVal :=
  match v with
  | .tstr s => .tstr (substString ctx s)
  | .tgen f ps => f env ps
  | .tarr xs => .tarr (substituteList env xs ctx)
  | .tobj fs => .tobj (substituteFields env fs ctx)
  | v => v

/-- Element-wise recursion over an array template. -/
def substituteList (env : Env) (xs : List TVal) (ctx : List (String × JsValue)) : List TVal :=
  match xs with
  | [] => []
  | x :: rest => substituteVariables env x ctx :: substituteList env rest ctx

/-- Key-wise recursion over an object template, preserving key order. -/
def substituteFields (env : Env) (fs : List (String × TVal)) (ctx : List (String × JsValue)) :
    List (String × TVal) :=
  match fs with
  | [] => []
  | (k, x) :: rest => (k, substituteVariables env x ctx) :: substituteFields env rest ctx
end

/-! ### Validator engine (`Validator` / `validators`, src/unnamed/part_001) -/

/-- Whether a value is exactly `undefined`. -/
def JsValue.isUndef : JsValue → Bool
  | .undef => true
  | _ => false

/-- `response.status === code`. -/
def statusIs (r : JsValue) (code : Int) : Bool :=
  JsValue.strictEq (r.getProp "status") (.num code)

/-- `response.status >= lo && response.status < hi` (JS comparisons with a
non-number status are false). -/
def statusInRange (r : JsValue) (lo hi : Int) : Bool :=
  match r.getProp "status" with
  | .num n => decide (lo ≤ n ∧ n < hi)
  | _ => false

/-- `response.headers && response.headers["content-type"]` (the JS `&&`
returns its falsy left operand unchanged). -/
def headersContentType (r : JsValue) : JsValue :=
  let h := r.getProp "headers"
  if h.truthy then h.getProp "content-type" else h

/-- Whether `needle` occurs as a contiguous substring of `hay`. -/
def charsContain (hay needle : List Char) : Bool :=
  match hay with
  | [] => needle.isEmpty
  | _ :: rest => needle.isPrefixOf hay || charsContain rest needle

/-- `v.includes(needle)`: substring test on strings; on any non-string it
throws a `TypeError`, which the caller's `try`/`catch` turns into `false`. -/
def jsIncludes (v : JsValue) (needle : String) : Except String JsValue :=
  match v with
  | .str s => .ok (.bool (charsContain s.toList needle.toList))
  | _ => .error "includes is not a function"

/-- `Validator.builtInValidators`: the table consulted when a validation
spec is a string.  Each entry returns the raw JS value the source function
returns (coerced to a boolean by `validate`). -/
def builtInValidator : String → Option (JsValue → Except String JsValue)
  | "status200" => some fun r => .ok (.bool (statusIs r 200))
  | "status201" => some fun r => .ok (.bool (statusIs r 201))
  | "status204" => some fun r => .ok (.bool (statusIs r 204))
  | "status400" => some fun r => .ok (.bool (statusIs r 400))
  | "status401" => some fun r => .ok (.bool (statusIs r 401))
  | "status403" => some fun r => .ok (.bool (statusIs r 403))
  | "status404" => some fun r => .ok (.bool (statusIs r 404))
  | "status500" => some fun r => .ok (.bool (statusIs r 500))
  | "statusSuccess" => some fun r => .ok (.bool (statusInRange r 200 300))
  | "statusRedirect" => some fun r => .ok (.bool (statusInRange r 300 400))
  | "statusClientError" => some fun r => .ok (.bool (statusInRange r 400 500))
  | "statusServerError" => some fun r => .ok (.bool (statusInRange r 500 600))
  | "hasContentType" => some fun r => .ok (headersContentType r)
  | "isJson" => some fun r =>
      let ct := headersContentType r
      if ct.truthy then jsIncludes ct "application/json" else .ok ct
  | "isXml" => some fun r =>
      let ct := headersContentType r
      if ct.truthy then do
        let a ← jsIncludes ct "application/xml"
        let b ← jsIncludes ct "text/xml"
        pure (.bool (a.truthy || b.truthy))
      else .ok ct
  | "isHtml" => some fun r =>
      let ct := headersContentType r
      if ct.truthy then jsIncludes ct "text/html" else .ok ct
  | _ => none

/-- A validation specification: a (possibly async, possibly throwing)
predicate function, the name of a built-in, an object of sub-specs that are
ANDed, or any other value (warned about and rejected). -/
inductive VSpec where
  | vfn : (JsValue → Except String JsValue) → VSpec
  | vstr : String → VSpec
  | vobj : List (String × VSpec) → VSpec
  | vother : JsValue → VSpec

mutual
/-- `Validator.validate(validator, response)`: dispatch on the spec shape;
non-boolean results are coerced (`Boolean(result)` after a warning); any
thrown error is caught and treated as `false`. -/
def Validator.validate (v : VSpec) (r : JsValue) : Bool :=
  match v with
  | .vfn f =>
      match f r with
      | .ok res => res.truthy
      | .error _ => false
  | .vstr s =>
      match builtInValidator s with
      | some f =>
          match f r with
          | .ok res => res.truthy
          | .error _ => false
      | none => false
  | .vobj entries => Validator.validateObject entries r
  | .vother _ => false

/-- `Validator.validateObject(validatorObj, response)`: every entry must
pass; the loop returns `false` at the first failing key. -/
def Validator.validateObject (entries : List (String × VSpec)) (r : JsValue) : Bool :=
  match entries with
  | [] => true
  | (_, v) :: rest =>
      if Validator.validate v r then Validator.validateObject rest r else false
end

/-- `validators.status(code)`. -/
def validators.status (code : Int) : JsValue → Except String JsValue :=
  fun r => .ok (.bool (statusIs r code))

/-- `validators.hasField(fieldPath)`:
`getNestedValue(response.data, fieldPath) !== undefined`. -/
def validators.hasField (fieldPath : String) : JsValue → Except String JsValue :=
  fun r => .ok (.bool (!(getNestedValue (r.getProp "data") fieldPath).isUndef))

/-- The loop body of `validators.and`: validate each spec in order through a
fresh `Validator`, returning `false` at the first failure. -/
def validators.andLoop (vs : List VSpec) (r : JsValue) : Bool :=
  match vs with
  | [] => true
  | v :: rest => if Validator.validate v r then validators.andLoop rest r else false

/-- `validators.and(...validators)`: the async conjunction combinator (it
never throws, since `validate` swallows errors). -/
def validators.and (vs : List VSpec) : JsValue → Except String JsValue :=
  fun r => .ok (.bool (validators.andLoop vs r))

/-! ### Extractor engine (`Extractor`, src/lib/extractor.js) -/

/-- `Extractor.builtInExtractors`: the named extractor table.  `response`
accesses use `getProp` (responses are objects) and `?.` chains use `getOpt`.
The clock-reading entries (`timestamp`, `unixTimestamp`, `dateNow`) read the
ambient environment; a `Date` object is modelled by its ISO rendering.
String lengths count characters (JS counts UTF-16 units; the two agree on
the data the runner produces). -/
def builtinExtractor (env : Env) : String → Option (JsValue → JsValue)
  | "id" => some fun r => (r.getProp "data").getOpt "id"
  | "status" => some fun r => r.getProp "status"
  | "statusText" => some fun r => r.getProp "statusText"
  | "message" => some fun r => (r.getProp "data").getOpt "message"
  | "error" => some fun r => (r.getProp "data").getOpt "error"
  | "success" => some fun r => (r.getProp "data").getOpt "success"
  | "location" => some fun r => extractByPath "headers.location" r
  | "contentType" => some fun r => extractByPath "headers.content-type" r
  | "contentLength" => some fun r => extractByPath "headers.content-length" r
  | "setCookie" => some fun r => extractByPath "headers.set-cookie" r
  | "etag" => some fun r => extractByPath "headers.etag" r
  | "lastModified" => some fun r => extractByPath "headers.last-modified" r
  | "data" => some fun r => r.getProp "data"
  | "fullResponse" => some fun r => r
  | "headers" => some fun r => r.getProp "headers"
  | "firstItem" => some fun r =>
      match r.getProp "data" with
      | .arr xs => xs.getD 0 .undef
      | _ => .null
  | "lastItem" => some fun r =>
      match r.getProp "data" with
      | .arr xs => xs.getD (xs.length - 1) .undef
      | _ => .null
  | "count" => some fun r =>
      match r.getProp "data" with
      | .arr xs => .num xs.length
      | _ => .null
  | "secondItem" => some fun r =>
      match r.getProp "data" with
      | .arr xs => xs.getD 1 .undef
      | _ => .null
  | "timestamp" => some fun _ => .str env.iso
  | "unixTimestamp" => some fun _ => .num (env.now.fdiv 1000)
  | "dateNow" => some fun _ => .str env.iso
  | "null" => some fun _ => .null
  | "undefined" => some fun _ => .undef
  | "empty" => some fun _ => .str ""
  | "emptyArray" => some fun _ => .arr []
  | "emptyObject" => some fun _ => .obj []
  | "firstCookie" => some fun r =>
      match extractByPath "headers.set-cookie" r with
      | .arr xs => xs.getD 0 .undef
      | _ => .null
  | "responseSize" => some fun r =>
      let d := r.getProp "data"
      if d.truthy then .num (String.length ((jsonStringify d).getD "")) else .num 0
  | _ => none

/-- A compiled regular expression as the extractor uses it: the pattern
string (whose truthiness gates the `regex` branch) together with the
behavior of `source.match(new RegExp(pattern))` — `none` for no match, or
the capture list (index 0 the whole match, unmatched groups `none`). -/
structure RegexSpec where
  pattern : String
  run : String → Option (List (Option String))

/-- A condition as consumed by `Extractor.evaluateCondition`: a predicate
function, a condition object (absent keys `none`; `matches` carries the
`RegExp.test` behavior), or any other value (evaluating to false). -/
inductive Cond where
  | cfn : (JsValue → Except String JsValue) → Cond
  | cobj (path : Option String) (eqv : Option JsValue) (neqv : Option JsValue)
      (matchesTest : Option (String → Bool)) (existsFlag : Option Bool)
      (statusCode : Option Int) (statusRange : Option (Int × Int)) : Cond
  | cother : JsValue → Cond

/-- `Extractor.evaluateCondition(condition, response)`: returns the raw
value of a predicate function (the caller tests truthiness), checks the
condition-object forms in source order, and turns any thrown error into
`false`.  A key present but `undefined` counts as absent, as in JS. -/
def evaluateCondition (c : Cond) (r : JsValue) : JsValue :=
  match c with
  | .cfn f =>
      match f r with
      | .ok v => v
      | .error _ => .bool false
  | .cobj path eqv neqv matchesTest existsFlag statusCode statusRange =>
      let pActive := match path with
        | some s => s != ""
        | none => false
      let p := path.getD ""
      let eqActive := match eqv with
        | some e => !e.isUndef
        | none => false
      let neqActive := match neqv with
        | some e => !e.isUndef
        | none => false
      if pActive && eqActive then
        .bool (JsValue.strictEq (extractByPath p r) (eqv.getD .undef))
      else if pActive && neqActive then
        .bool (!JsValue.strictEq (extractByPath p r) (neqv.getD .undef))
      else if pActive && matchesTest.isSome then
        match extractByPath p r, matchesTest with
        | .str s, some t => .bool (t s)
        | _, _ => .bool false
      else if pActive && existsFlag.isSome then
        let v := extractByPath p r
        .bool (if existsFlag.getD false then !v.isUndef else v.isUndef)
      else if (match statusCode with | some n => n != 0 | none => false) then
        .bool (JsValue.strictEq (r.getProp "status") (.num (statusCode.getD 0)))
      else
        match statusRange with
        | some (lo, hi) =>
            .bool (match r.getProp "status" with
              | .num n => decide (lo ≤ n ∧ n ≤ hi)
              | _ => false)
        | none => .bool false
  | .cother _ => .bool false

mutual
/-- An extraction rule: a string (built-in name or path), a custom function
(which may throw), a complex configuration object, or any other value
(skipped with a warning). -/
inductive Rule where
  | rstr : String → Rule
  | rfn : (JsValue → Except String JsValue) → Rule
  | rcomplex : Complex → Rule
  | rother : JsValue → Rule

/-- A complex extraction configuration, carrying the keys `extractComplex`
inspects in source order: `path` (+`transform`/`filter`/`default`),
`multiple`, `conditional`, `array`, `computed`, `regex` (+`source`/`group`).
An absent `default` is the `undef` value, matching the source's
`config.default !== undefined` tests. -/
inductive Complex where
  | mk (path : Option String)
      (transf : Option (JsValue → JsValue → Except String JsValue))
      (filt : Option (JsValue → JsValue → Except String JsValue))
      (dflt : JsValue)
      (multiple : Option (List (String × Rule)))
      (conditional : Option (List (Cond × Rule)))
      (arrayCfg : Option ArrayCfg)
      (computed : Option (JsValue → Except String JsValue))
      (regex : Option RegexSpec)
      (srcPath : Option String)
      (group : Option Nat) : Complex

/-- The `array` sub-configuration: `path` (defaulting to `"data"`), and the
mutually exclusive `map` / `filter` / `find` / `pluck` operations. -/
inductive ArrayCfg where
  | mk (path : Option String)
      (mapRule : Option Rule)
      (filt : Option (JsValue → Except String JsValue))
      (find : Option (JsValue → Except String JsValue))
      (pluck : Option String) : ArrayCfg
end

/-- JS truthiness of a rule value (`if (config.array.map)`). -/
def Rule.truthy : Rule → Bool
  | .rstr s => s ≠ ""
  | .rfn _ => true
  | .rcomplex _ => true
  | .rother v => v.truthy

/-- `Array.prototype.filter` with a possibly-throwing predicate: the first
throw propagates, otherwise keep the elements whose test is truthy. -/
def filterExcept (f : JsValue → Except String JsValue) :
    List JsValue → Except String (List JsValue)
  | [] => .ok []
  | x :: rest =>
      match f x with
      | .error e => .error e
      | .ok b =>
          match filterExcept f rest with
          | .error e => .error e
          | .ok ys => .ok (if b.truthy then x :: ys else ys)

/-- `Array.prototype.find` with a possibly-throwing predicate: the first
truthy element, or `undefined`. -/
def findExcept (f : JsValue → Except String JsValue) :
    List JsValue → Except String JsValue
  | [] => .ok .undef
  | x :: rest =>
      match f x with
      | .error e => .error e
      | .ok b => if b.truthy then .ok x else findExcept f rest

/-- The non-`map` tail of the `array` branch: `filter`, `find`, `pluck`, or
the array unchanged (no recursion through rules, so outside the mutual
block). -/
def evalArrayTail (afilt afind : Option (JsValue → Except String JsValue))
    (apluck : Option String) (xs : List JsValue) : Except String JsValue :=
  match afilt with
  | some f =>
      match filterExcept f xs with
      | .error e => .error e
      | .ok ys => .ok (.arr ys)
  | none =>
      match afind with
      | some f => findExcept f xs
      | none =>
          if (match apluck with | some s => s != "" | none => false) then
            .ok (.arr (xs.map fun item => extractByPath (apluck.getD "") (.obj [("data", item)])))
          else .ok (.arr xs)

mutual
/-- The `try` body of one `extract` entry: `some v` when the entry computes
a value (later assigned to its key), `none` when it throws (caught and
logged) or has an unknown shape (`continue`). -/
def evalRule (env : Env) (rule : Rule) (r : JsValue) : Option JsValue :=
  match rule with
  | .rstr s =>
      match builtinExtractor env s with
      | some f => some (f r)
      | none => some (extractByPath s r)
  | .rfn f =>
      match f r with
      | .ok v => some v
      | .error _ => none
  | .rcomplex c => some (extractComplex env c r)
  | .rother _ => none
  termination_by (sizeOf rule, 0, 0)

/-- `this.extract({ k: rule }, response)[k]` as used by the `multiple`,
`conditional` and `array.map` sub-extractions: a swallowed per-entry failure
leaves the key absent, so reading it back yields `undefined`. -/
def evalRuleOrUndef (env : Env) (rule : Rule) (r : JsValue) : JsValue :=
  match evalRule env rule r with
  | some v => v
  | none => .undef
  termination_by (sizeOf rule, 1, 0)

/-- `Extractor.extractComplex(config, response)`: the whole body runs in a
`try` whose `catch` returns `config.default`. -/
def extractComplex (env : Env) (c : Complex) (r : JsValue) : JsValue :=
  match c with
  | .mk path transf filt dflt multiple conditional arrayCfg computed regex srcPath group =>
      match extractComplexCore env path transf filt dflt multiple conditional arrayCfg
          computed regex srcPath group r with
      | .ok v => v
      | .error _ => dflt
  termination_by (sizeOf c, 2, 0)

/-- The `try` body of `extractComplex`, dispatching on the configuration
keys in source order (`path`, `multiple`, `conditional`, `array`,
`computed`, `regex`); `Except.error` models a throw from a user-supplied
`transform`/`filter`/`computed`/array callback. -/
def extractComplexCore (env : Env) (path : Option String)
    (transf : Option (JsValue → JsValue → Except String JsValue))
    (filt : Option (JsValue → JsValue → Except String JsValue))
    (dflt : JsValue) (multiple : Option (List (String × Rule)))
    (conditional : Option (List (Cond × Rule))) (arrayCfg : Option ArrayCfg)
    (computed : Option (JsValue → Except String JsValue))
    (regex : Option RegexSpec) (srcPath : Option String) (group : Option Nat)
    (r : JsValue) : Except String JsValue :=
  if (match path with | some p => p != "" | none => false) then
    let v0 := extractByPath (path.getD "") r
    match (match transf with
           | some f => f v0 r
           | none => .ok v0 : Except String JsValue) with
    | .error e => .error e
    | .ok v1 =>
        match (match filt with
               | some f =>
                   match f v1 r with
                   | .error e => .error e
                   | .ok b => .ok (if b.truthy then v1 else .undef)
               | none => .ok v1 : Except String JsValue) with
        | .error e => .error e
        | .ok v2 =>
            .ok (if (v2.isUndef || v2.isNullish) ∧ !dflt.isUndef then dflt else v2)
  else
    match multiple with
    | some m => .ok (.obj (evalMultiple env m r))
    | none =>
        match conditional with
        | some cs =>
            match evalConditional env cs r with
            | some v => .ok v
            | none => .ok dflt
        | none =>
            match arrayCfg with
            | some a => evalArray env a dflt r
            | none =>
                match computed with
                | some f => f r
                | none =>
                    if (match regex with | some rs => rs.pattern != "" | none => false) then
                      let src : JsValue := match srcPath with
                        | some s =>
                            if s ≠ "" then extractByPath s r
                            else match jsonStringify r with
                              | some j => .str j
                              | none => .undef
                        | none =>
                            match jsonStringify r with
                            | some j => .str j
                            | none => .undef
                      match src, regex with
                      | .str s, some rs =>
                          match rs.run s with
                          | some groups =>
                              .ok (match groups.getD (group.getD 0) none with
                                | some g => .str g
                                | none => .undef)
                          | none => .ok dflt
                      | _, _ => .ok dflt
                    else .ok .undef
  termination_by (sizeOf multiple + sizeOf conditional + sizeOf arrayCfg, 1, 0)

/-- The `multiple` loop: each sub-rule extracted independently through a
singleton `extract` call and assembled into a nested object. -/
def evalMultiple (env : Env) (m : List (String × Rule)) (r : JsValue) :
    List (String × JsValue) :=
  match m with
  | [] => []
  | (k, rule) :: rest => (k, evalRuleOrUndef env rule r) :: evalMultiple env rest r
  termination_by (sizeOf m, 1, 0)

/-- The `conditional` loop: the first condition whose evaluation is truthy
yields its `then` rule's extraction; `none` when no condition matches. -/
def evalConditional (env : Env) (cs : List (Cond × Rule)) (r : JsValue) :
    Option JsValue :=
  match cs with
  | [] => none
  | (cond, thenRule) :: rest =>
      if (evaluateCondition cond r).truthy then some (evalRuleOrUndef env thenRule r)
      else evalConditional env rest r
  termination_by (sizeOf cs, 1, 0)

/-- The `array` branch: locate the array at `array.path || "data"`; a
non-array yields `config.default || []`; otherwise apply the first
configured operation among `map`, `filter`, `find`, `pluck`, defaulting to
the array itself. -/
def evalArray (env : Env) (a : ArrayCfg) (dflt : JsValue) (r : JsValue) :
    Except String JsValue :=
  match a with
  | .mk apath mapRule afilt afind apluck =>
      let p := match apath with
        | some s => if s ≠ "" then s else "data"
        | none => "data"
      match extractByPath p r with
      | .arr xs =>
          match mapRule with
          | some rule =>
              if rule.truthy then .ok (.arr (evalArrayMap env rule xs 0))
              else evalArrayTail afilt afind apluck xs
          | none => evalArrayTail afilt afind apluck xs
      | _ => .ok (if dflt.truthy then dflt else .arr [])
  termination_by (sizeOf a, 1, 0)

/-- The `array.map` loop: each element is wrapped as a synthetic response
`{data: item, index}` and extracted through a singleton `extract` call. -/
def evalArrayMap (env : Env) (rule : Rule) (xs : List JsValue) (i : Nat) :
    List JsValue :=
  match xs with
  | [] => []
  | item :: rest =>
      evalRuleOrUndef env rule (.obj [("data", item), ("index", .num i)]) ::
        evalArrayMap env rule rest (i + 1)
  termination_by (sizeOf rule, 1, sizeOf xs)
end

/-- `Extractor.extract(extractConfig, response)`: evaluate each entry in
order inside its own `try`; successful entries are assigned to the result
object, failing or unknown-shaped entries are skipped, and the partial
result object is always returned — no exception escapes. -/
def extract (env : Env) (cfg : List (String × Rule)) (r : JsValue) :
    List (String × JsValue) :=
  cfg.foldl
    (fun acc kv =>
      match evalRule env kv.2 r with
      | some v => objAssign acc kv.1 v
      | none => acc)
    []

/-! ### Scenario runner (`ScenarioRunner`, src/lib/index.js) -/

/-- The context: the JS object mapping variable names to values, owned by
one run. -/
abbrev Ctx := List (String × JsValue)

/-- JS truthiness of a validation-spec value (`if (step.validate)`):
functions and objects are truthy, a name string is truthy when nonempty. -/
def VSpec.truthy : VSpec → Bool
  | .vstr s => s ≠ ""
  | .vother v => v.truthy
  | _ => true

/-- A step as consumed by the runner.  `stype` is the step's `type` field;
absent template fields (`body`, `headers`) are the `undefined` template
value, matching the source's truthiness tests.  `transform(body, context)`
reads the context and may throw. -/
structure Step where
  name : String
  stype : Option String
  method : String
  url : String
  body : TVal
  headers : TVal
  validate : Option VSpec
  extract : Option (List (String × Rule))
  transform : Option (TVal → Ctx → Except String TVal)

/-- A scenario: a name, an optional description and the ordered steps. -/
structure Scenario where
  name : String
  description : Option String
  steps : List Step

/-- One entry of the result list: `{step, success, result}` on success,
`{step, success, error}` on failure. -/
structure StepResult where
  step : String
  success : Bool
  result : Option JsValue
  error : Option String

/-- The `summary` counts of a report bundle. -/
structure RunSummary where
  total : Nat
  successful : Nat
  failed : Nat

/-- The bundle handed to each reporter:
`{scenarioName, results, context, timestamp, summary}`. -/
structure ReportData where
  scenarioName : String
  results : List StepResult
  context : Ctx
  timestamp : String
  summary : RunSummary

/-- One request handed to the transport collaborator
(`apiClient.request(method, url, body, {headers})`). -/
structure Request where
  method : String
  url : String
  body : TVal
  headers : List (String × TVal)

/-- The transport collaborator as an oracle: `replies n` is the outcome of
the `n`-th call (`.error` models a network/server/setup failure thrown by
`ApiClient.request`); `calls` counts invocations and `log` records them. -/
structure TState where
  replies : Nat → Except String JsValue
  calls : Nat
  log : List Request

/-- A `ScenarioRunner` instance: its configuration and its plugin
registries (custom validators/extractors, step-type handlers, the four
middleware hook lists, and named reporters).  Middleware and step-type
handlers receive the context and return the possibly-updated context,
modelling in-place mutation; `.error` models a throw. -/
structure Runner where
  dryRun : Bool
  defaultHeaders : List (String × TVal)
  customValidators : List (String × (JsValue → Except String JsValue))
  customExtractors : List (String × (JsValue → Except String JsValue))
  stepTypes : List (String × (Step → Ctx → Except String (JsValue × Ctx)))
  beforeScenarioMWs : List (Scenario → Except String Unit)
  beforeStepMWs : List (Step → Ctx → Except String Ctx)
  afterStepMWs : List (Step → Ctx → JsValue → Except String Ctx)
  afterScenarioMWs : List (Scenario → Ctx → List StepResult → Except String Ctx)
  reporters : List (String × (ReportData → Except String Unit))

/-- The dry-run mock:
`{status: 200, data: {id: "mock-id-" + Date.now(), message: "dry run"}, headers: {}}`. -/
def mockResponse (env : Env) : JsValue :=
  .obj [("status", .num 200),
        ("data", .obj [("id", .str ("mock-id-" ++ toString env.now)),
                       ("message", .str "dry run")]),
        ("headers", .obj [])]

/-- `ScenarioRunner.validateResponse(validator, response)`: a string naming
a registered custom validator is invoked directly (its result is not
boolean-coerced and a throw propagates to the step); everything else goes
through `Validator.validate`, which never throws. -/
def validateResponse (R : Runner) (v : VSpec) (r : JsValue) : Except String JsValue :=
  match v with
  | .vstr s =>
      match R.customValidators.lookup s with
      | some f => f r
      | none => .ok (.bool (Validator.validate (.vstr s) r))
  | v => .ok (.bool (Validator.validate v r))

/-- `ScenarioRunner.extractFromResponse(extractor, response)`: string rules
naming a registered custom extractor are replaced by the registered
function, then the whole spec goes through `Extractor.extract`. -/
def extractFromResponse (env : Env) (R : Runner) (cfg : List (String × Rule))
    (r : JsValue) : Ctx :=
  let processed := cfg.map fun kv =>
    match kv.2 with
    | .rstr s =>
        match R.customExtractors.lookup s with
        | some f => (kv.1, Rule.rfn f)
        | none => kv
    | _ => kv
  extract env processed r

/-- Template-object assignment (for the header spread). -/
def tAssign : List (String × TVal) → String → TVal → List (String × TVal)
  | [], k, v => [(k, v)]
  | (k', v') :: rest, k, v =>
      if k' = k then (k', v) :: rest else (k', v') :: tAssign rest k v

/-- The fields contributed by spreading a template value: an object's
fields; primitives contribute none (the runner only spreads header
objects). -/
def spreadFields : TVal → List (String × TVal)
  | .tobj fs => fs
  | _ => []

/-- `{...defaults, ...stepHeaders}`: step-level headers override client
defaults on key collision. -/
def mergeHeaders (defaults : List (String × TVal)) (stepHeaders : TVal) :
    List (String × TVal) :=
  (spreadFields stepHeaders).foldl (fun acc kv => tAssign acc kv.1 kv.2) defaults

/-- The validate-then-extract tail of `executeHttpStep`: a truthy `validate`
spec is evaluated (a custom validator's throw fails the step with its own
error; a falsy result fails it with the deterministic message naming the
step); a present `extract` spec is evaluated and its results merged into
the context via `Object.assign`. -/
def stepValidateExtract (env : Env) (R : Runner) (step : Step) (ctx : Ctx)
    (st : TState) (response : JsValue) : Except String JsValue × Ctx × TState :=
  let afterValidate : Except String Unit :=
    match step.validate with
    | some v =>
        if v.truthy then
          match validateResponse R v response with
          | .error e => .error e
          | .ok isValid =>
              if isValid.truthy then .ok ()
              else .error ("Validation failed for step: " ++ step.name)
        else .ok ()
    | none => .ok ()
  match afterValidate with
  | .error e => (.error e, ctx, st)
  | .ok _ =>
      match step.extract with
      | some cfg =>
          let extracted := extractFromResponse env R cfg response
          (.ok response, objAssignAll ctx extracted, st)
      | none => (.ok response, ctx, st)

/-- `ScenarioRunner.executeHttpStep(step, context)`: substitute variables in
url/body/headers, apply the optional `transform` (its throw fails the
step), then either synthesize the mock response (dry run — the transport is
not touched) or consume the next transport reply (a transport throw fails
the step), and finally validate and extract. -/
def executeHttpStep (env : Env) (R : Runner) (step : Step) (ctx : Ctx) (st : TState) :
    Except String JsValue × Ctx × TState :=
  let url := substString ctx step.url
  let body0 := if step.body.truthy then substituteVariables env step.body ctx
               else TVal.tundef
  match (match step.transform with
         | some f => f body0 ctx
         | none => .ok body0 : Except String TVal) with
  | .error e => (.error e, ctx, st)
  | .ok body =>
      let stepHeaders := if step.headers.truthy then substituteVariables env step.headers ctx
                         else TVal.tobj []
      let merged := mergeHeaders R.defaultHeaders stepHeaders
      if R.dryRun then
        stepValidateExtract env R step ctx st (mockResponse env)
      else
        let req : Request := { method := step.method, url := url, body := body, headers := merged }
        let st' : TState := { st with calls := st.calls + 1, log := st.log ++ [req] }
        match st.replies st.calls with
        | .error e => (.error e, ctx, st')
        | .ok resp => stepValidateExtract env R step ctx st' resp

/-- `ScenarioRunner.executeStep(step, context)`: a step whose truthy `type`
names a registered handler is delegated entirely to that handler (which may
update the context and may throw); otherwise the default HTTP execution. -/
def executeStep (env : Env) (R : Runner) (step : Step) (ctx : Ctx) (st : TState) :
    Except String JsValue × Ctx × TState :=
  match step.stype with
  | some t =>
      if t ≠ "" then
        match R.stepTypes.lookup t with
        | some handler =>
            match handler step ctx with
            | .ok (v, ctx') => (.ok v, ctx', st)
            | .error e => (.error e, ctx, st)
        | none => executeHttpStep env R step ctx st
      else executeHttpStep env R step ctx st
  | none => executeHttpStep env R step ctx st

/-- Run a `beforeStep` middleware list; a throw stops the list, keeping the
context updates made by the middlewares before the throwing one. -/
def runStepMWs (mws : List (Step → Ctx → Except String Ctx)) (step : Step) (ctx : Ctx) :
    Ctx × Option String :=
  match mws with
  | [] => (ctx, none)
  | f :: fs =>
      match f step ctx with
      | .ok c => runStepMWs fs step c
      | .error e => (ctx, some e)

/-- Run an `afterStep` middleware list (receiving the step result). -/
def runAfterStepMWs (mws : List (Step → Ctx → JsValue → Except String Ctx))
    (step : Step) (ctx : Ctx) (res : JsValue) : Ctx × Option String :=
  match mws with
  | [] => (ctx, none)
  | f :: fs =>
      match f step ctx res with
      | .ok c => runAfterStepMWs fs step c res
      | .error e => (ctx, some e)

/-- Run the `beforeScenario` middleware list. -/
def runScenMWs (mws : List (Scenario → Except String Unit)) (sc : Scenario) :
    Option String :=
  match mws with
  | [] => none
  | f :: fs =>
      match f sc with
      | .ok _ => runScenMWs fs sc
      | .error e => some e

/-- Run the `afterScenario` middleware list. -/
def runAfterScenMWs
    (mws : List (Scenario → Ctx → List StepResult → Except String Ctx))
    (sc : Scenario) (ctx : Ctx) (results : List StepResult) : Ctx × Option String :=
  match mws with
  | [] => (ctx, none)
  | f :: fs =>
      match f sc ctx results with
      | .ok c => runAfterScenMWs fs sc c results
      | .error e => (ctx, some e)

/-- The step loop of `runScenarioConfig` (`idx` is the zero-based loop
index, so step numbers are `idx + 1`).  Each iteration runs `beforeStep`
middleware, the step, and `afterStep` middleware inside one `try`: on
success a success entry is appended; on a throw a failure entry is appended
(after the success entry, if `afterStep` threw) and the loop aborts,
reporting the 1-based step number and name of the failing step. -/
def runStepsAux (env : Env) (R : Runner) :
    List Step → Nat → Ctx → TState → List StepResult →
      List StepResult × Ctx × TState × Option (Nat × String)
  | [], _, ctx, st, acc => (acc, ctx, st, none)
  | step :: rest, idx, ctx, st, acc =>
      match runStepMWs R.beforeStepMWs step ctx with
      | (ctx1, some e) =>
          (acc ++ [{ step := step.name, success := false, result := none, error := some e }],
           ctx1, st, some (idx + 1, step.name))
      | (ctx1, none) =>
          match executeStep env R step ctx1 st with
          | (.error e, ctx2, st2) =>
              (acc ++ [{ step := step.name, success := false, result := none, error := some e }],
               ctx2, st2, some (idx + 1, step.name))
          | (.ok result, ctx2, st2) =>
              let acc2 := acc ++
                [{ step := step.name, success := true, result := some result, error := none }]
              match runAfterStepMWs R.afterStepMWs step ctx2 result with
              | (ctx3, some e) =>
                  (acc2 ++ [{ step := step.name, success := false, result := none, error := some e }],
                   ctx3, st2, some (idx + 1, step.name))
              | (ctx3, none) => runStepsAux env R rest (idx + 1) ctx3 st2 acc2

/-- `ScenarioRunner.generateReports(scenarioName, results, context)`: build
the bundle once and hand it to every registered reporter; each reporter
runs in its own `try`, so a reporter failure is logged (recorded here as
`false`) and never fails the run. -/
def generateReports (env : Env) (R : Runner) (scenarioName : String)
    (results : List StepResult) (ctx : Ctx) : ReportData × List (String × Bool) :=
  let rd : ReportData := {
    scenarioName := scenarioName
    results := results
    context := ctx
    timestamp := env.iso
    summary := {
      total := results.length
      successful := (results.filter fun r => r.success).length
      failed := (results.filter fun r => !r.success).length } }
  (rd, R.reporters.map fun nf =>
    (nf.1, match nf.2 rd with
           | .ok _ => true
           | .error _ => false))

/-- The observable outcome of one `runScenarioConfig` call.  `outcome` is
the JS return/throw; the remaining fields record what the run did: the
result list and final context, the transport state, which phase failed
(`beforeScenarioError` / `failedAt` / `afterScenarioError`), whether the
`afterScenario` hook point was reached, and the report bundle with the
per-reporter delivery outcomes (`none` / `[]` when reporting never ran). -/
structure RunOutput where
  outcome : Except String Unit
  results : List StepResult
  context : Ctx
  state : TState
  beforeScenarioError : Option String
  failedAt : Option (Nat × String)
  afterScenarioRan : Bool
  afterScenarioError : Option String
  report : Option ReportData
  reporterRuns : List (String × Bool)

/-- `ScenarioRunner.runScenarioConfig(scenario, configVariables)`: run
`beforeScenario` middleware (a throw aborts before the context exists),
seed the context from the caller's variables, run the step loop, and — only
when every step succeeded — run `afterScenario` middleware and then the
reporters.  A step failure throws `Scenario failed at step N: name` past
the `afterScenario`/report calls; the outer `catch` logs and rethrows it
unchanged. -/
def runScenarioConfig (env : Env) (R : Runner) (scenario : Scenario)
    (configVariables : Ctx) (st : TState) : RunOutput :=
  match runScenMWs R.beforeScenarioMWs scenario with
  | some e =>
      { outcome := .error e, results := [], context := [], state := st,
        beforeScenarioError := some e, failedAt := none, afterScenarioRan := false,
        afterScenarioError := none, report := none, reporterRuns := [] }
  | none =>
      let ctx0 := objAssignAll [] configVariables
      match runStepsAux env R scenario.steps 0 ctx0 st [] with
      | (results, ctx1, st1, some (k, name)) =>
          { outcome := .error ("Scenario failed at step " ++ toString k ++ ": " ++ name),
            results := results, context := ctx1, state := st1,
            beforeScenarioError := none, failedAt := some (k, name),
            afterScenarioRan := false, afterScenarioError := none,
            report := none, reporterRuns := [] }
      | (results, ctx1, st1, none) =>
          match runAfterScenMWs R.afterScenarioMWs scenario ctx1 results with
          | (ctx2, some e) =>
              { outcome := .error e, results := results, context := ctx2, state := st1,
                beforeScenarioError := none, failedAt := none,
                afterScenarioRan := true, afterScenarioError := some e,
                report := none, reporterRuns := [] }
          | (ctx2, none) =>
              let rr := generateReports env R scenario.name results ctx2
              { outcome := .ok (), results := results, context := ctx2, state := st1,
                beforeScenarioError := none, failedAt := none,
                afterScenarioRan := true, afterScenarioError := none,
                report := some rr.1, reporterRuns := rr.2 }

/-! ### Specification-side notions used to state the claims -/

/-- The placeholder keys the substitution regex would match in a character
list, in scan order (mirroring the scanner in `substChars`). -/
def placeholderKeys : List Char → List String
  | [] => []
  | c :: rest =>
      if c = '{' then
        let ident := rest.takeWhile isIdentChar
        let after := rest.drop ident.length
        if ident ≠ [] ∧ after.headD ' ' = '}' then
          String.mk ident :: placeholderKeys (after.drop 1)
        else placeholderKeys rest
      else placeholderKeys rest
  termination_by l => l.length
  decreasing_by
    all_goals simp_wf
    all_goals omega

mutual
/-- Whether a template value contains no deferred generator-call object
(`{func, params}`). -/
def genFree : TVal → Bool
  | .tgen _ _ => false
  | .tarr xs => genFreeList xs
  | .tobj fs => genFreeFields fs
  | _ => true

/-- `genFree` over the elements of an array template. -/
def genFreeList : List TVal → Bool
  | [] => true
  | x :: rest => genFree x && genFreeList rest

/-- `genFree` over the values of an object template. -/
def genFreeFields : List (String × TVal) → Bool
  | [] => true
  | (_, x) :: rest => genFree x && genFreeFields rest
end

/-- The key set of `c` is contained in that of `c'` — "keys are only added
or overwritten, never removed". -/
def keysMono (c c' : Ctx) : Prop := ∀ x ∈ objKeys c, x ∈ objKeys c'

/-- The registered hooks and handlers of a runner never remove context keys
(each returned context retains every key of its input context). -/
def runnerKeysMono (R : Runner) : Prop :=
  (∀ f ∈ R.beforeStepMWs, ∀ step c c', f step c = .ok c' → keysMono c c')
  ∧ (∀ f ∈ R.afterStepMWs, ∀ step c res c', f step c res = .ok c' → keysMono c c')
  ∧ (∀ h ∈ R.stepTypes, ∀ step c v c', h.2 step c = .ok (v, c') → keysMono c c')
  ∧ (∀ f ∈ R.afterScenarioMWs, ∀ sc c res c', f sc c res = .ok c' → keysMono c c')

/-! ### Concrete fixtures used by witnesses and counterexamples -/

/-- A fixed ambient environment. -/
def wEnv : Env := ⟨0, "t0"⟩

/-- A runner with default configuration and no registrations. -/
def wRunner : Runner := ⟨false, [], [], [], [], [], [], [], [], []⟩

/-- A dry-run runner with no registrations. -/
def wDryRunner : Runner := ⟨true, [], [], [], [], [], [], [], [], []⟩

/-- A runner with one registered reporter and nothing else. -/
def wReporterRunner : Runner :=
  ⟨false, [], [], [], [], [], [], [], [], [("rep", fun _ => .ok ())]⟩

/-- A step with no validation, extraction or transform. -/
def wStepOk : Step := ⟨"s1", none, "GET", "/a", .tundef, .tundef, none, none, none⟩

/-- A step whose validator always rejects. -/
def wStepFail : Step :=
  ⟨"s1", none, "GET", "/a", .tundef, .tundef,
   some (.vfn fun _ => .ok (.bool false)), none, none⟩

/-- A step expecting status 201. -/
def wStep201 : Step :=
  ⟨"s2", none, "GET", "/a", .tundef, .tundef,
   some (.vfn (validators.status 201)), none, none⟩

/-- A transport oracle always answering with an empty status-200 response. -/
def wTransport : TState :=
  ⟨fun _ => .ok (.obj [("status", .num 200), ("data", .obj []), ("headers", .obj [])]),
   0, []⟩

/-- A scenario whose first step fails validation, with a second step behind
it. -/
def wScenarioFail : Scenario := ⟨"sc", none, [wStepFail, wStepOk]⟩

/-- A scenario with one trivially succeeding step. -/
def wScenarioOk : Scenario := ⟨"sc", none, [wStepOk]⟩

/-! ## Claim theorems -/

theorem objAssign_keys_mono {o : List (String × JsValue)} {k : String} {v : JsValue}
    {x : String} (h : x ∈ objKeys o) : x ∈ objKeys (objAssign o k v) := by
  induction o with
  | nil => simp [objKeys] at h
  | cons hd tl ih =>
    simp only [objKeys, List.map_cons, List.mem_cons] at h
    by_cases hk : hd.1 = k
    · cases h with
      | inl h => simp [objAssign, hk, objKeys, h]
      | inr h => simp [objAssign, hk, objKeys]; right; simpa [objKeys] using h
    · cases h with
      | inl h => simp [objAssign, hk, objKeys, h]
      | inr h =>
        simp only [objAssign, hk, ite_false, objKeys, List.map_cons, List.mem_cons]
        right
        exact ih (by simpa [objKeys] using h)

theorem objAssignAll_keys_mono {src : List (String × JsValue)}
    {o : List (String × JsValue)} {x : String} (h : x ∈ objKeys o) :
    x ∈ objKeys (objAssignAll o src) := by
  induction src generalizing o with
  | nil => simpa [objAssignAll] using h
  | cons hd tl ih =>
    simp only [objAssignAll, List.foldl_cons]
    exact ih (objAssign_keys_mono h)

theorem objAssign_lookup_self (o : List (String × JsValue)) (k : String) (v : JsValue) :
    (objAssign o k v).lookup k = some v := by
  induction o with
  | nil => simp [objAssign, List.lookup]
  | cons hd tl ih =>
    by_cases hk : hd.1 = k
    · simp [objAssign, hk, List.lookup]
    · have hb : (k == hd.1) = false := by
        simp only [beq_eq_false_iff_ne, ne_eq]
        exact fun h => hk h.symm
      simp [objAssign, hk, List.lookup, hb, ih]

theorem walkPath_nullish {parts : List String} {cur : JsValue}
    (hnull : cur.isNullish = true) (hne : parts ≠ []) : walkPath parts cur = .undef := by
  cases parts with
  | nil => exact absurd rfl hne
  | cons p ps => simp [walkPath, hnull]

/-- C4: for every path string and every response value, path resolution
(`extractByPath`) never throws — it is a total function whose walk returns
`undefined` as soon as an intermediate value along the dotted/indexed path
is `null` or missing (first and third conjuncts), and returns `undefined`
when an indexed segment's named value is not an array (second conjunct). -/
theorem spec_c4_path_resolution_short_circuits :
    (∀ (parts : List String) (cur : JsValue),
        cur.isNullish = true → parts ≠ [] → walkPath parts cur = .undef)
    ∧ (∀ (part : String) (rest : List String) (cur : JsValue) (name : String) (idx : Nat),
        parseIndexSuffix part = some (name, idx) →
        cur.isNullish = false →
        (∀ xs, cur.getProp name ≠ .arr xs) →
        walkPath (part :: rest) cur = .undef)
    ∧ (∀ (path : String) (r : JsValue),
        path ≠ "status" → path ≠ "statusText" →
        "headers.".toList.isPrefixOf path.toList = false →
        dataPathParts path ≠ [] → (r.getOpt "data").isNullish = true →
        extractByPath path r = .undef) := by
  refine ⟨?_, ?_, ?_⟩
  · intro parts cur hnull hne
    exact walkPath_nullish hnull hne
  · intro part rest cur name idx hparse hnn hnarr
    cases h : cur.getProp name with
    | arr xs => exact absurd h (hnarr xs)
    | _ => simp [walkPath, hnn, hparse, h]
  · intro path r h1 h2 h3 h4 h5
    simp only [extractByPath, h1, h2, h3, if_false, Bool.false_eq_true, ite_false]
    exact walkPath_nullish h5 h4

/-- Witness for C4 at concrete inputs: a `null` intermediate, an indexed
segment over a non-array, and a two-segment path over missing data. -/
theorem spec_c4_path_resolution_short_circuits_witness :
    walkPath ["a"] .null = .undef
    ∧ walkPath ["a[0]", "b"] (.obj [("a", .num 1)]) = .undef
    ∧ extractByPath "a.b" (.obj []) = .undef := by
  refine ⟨?_, ?_, ?_⟩
  · exact spec_c4_path_resolution_short_circuits.1 ["a"] .null rfl (by simp)
  · exact spec_c4_path_resolution_short_circuits.2.1 "a[0]" ["b"] (.obj [("a", .num 1)])
      "a" 0 (by decide) rfl
      (by intro xs h; simp [JsValue.getProp, List.lookup] at h)
  · exact spec_c4_path_resolution_short_circuits.2.2 "a.b" (.obj [])
      (by decide) (by decide) (by decide) (by decide) rfl

theorem objAssign_keys_cases {o : List (String × JsValue)} {k x : String} {v : JsValue}
    (h : x ∈ objKeys (objAssign o k v)) : x ∈ objKeys o ∨ x = k := by
  induction o with
  | nil =>
    right
    simpa [objAssign, objKeys] using h
  | cons hd tl ih =>
    by_cases hk : hd.1 = k
    · left
      simp only [objAssign, hk, ite_true, objKeys, List.map_cons, List.mem_cons] at h ⊢
      exact h
    · simp only [objAssign, hk, ite_false, objKeys, List.map_cons, List.mem_cons] at h ⊢
      rcases h with hx | hmem
      · exact Or.inl (Or.inl hx)
      · rcases ih hmem with h1 | h2
        · exact Or.inl (Or.inr h1)
        · exact Or.inr h2

theorem objAssignAll_keys_cases {src o : List (String × JsValue)} {x : String}
    (h : x ∈ objKeys (objAssignAll o src)) : x ∈ objKeys o ∨ x ∈ objKeys src := by
  induction src generalizing o with
  | nil =>
    left
    simpa [objAssignAll] using h
  | cons hd tl ih =>
    simp only [objAssignAll, List.foldl_cons] at h
    rcases ih h with h1 | h2
    · rcases objAssign_keys_cases h1 with ha | hb
      · exact Or.inl ha
      · right
        simp [objKeys, hb]
    · right
      simp only [objKeys, List.map_cons, List.mem_cons]
      exact Or.inr h2

/-- C10: a string-path extraction rule whose path resolves to no value does
not omit its output key — `extract` assigns the key with value `undefined`,
and merging that mapping into a context overwrites any previous value of
the key with `undefined`. -/
theorem spec_c10_unresolved_path_assigns_undefined
    (env : Env) (k path : String) (r : JsValue) (ctx : Ctx)
    (hb : builtinExtractor env path = none)
    (hp : extractByPath path r = .undef) :
    extract env [(k, .rstr path)] r = [(k, .undef)]
    ∧ (objAssignAll ctx (extract env [(k, .rstr path)] r)).lookup k = some .undef := by
  have h1 : extract env [(k, .rstr path)] r = [(k, .undef)] := by
    simp [extract, evalRule, hb, hp, objAssign]
  refine ⟨h1, ?_⟩
  rw [h1]
  show (objAssignAll ctx [(k, .undef)]).lookup k = some .undef
  simpa [objAssignAll] using objAssign_lookup_self ctx k (.undef)

/-- Witness for C10: extracting the missing path `data.missing` assigns the
key `id` as `undefined`, and the merge overwrites the previously extracted
`id` value `"abc"`. -/
theorem spec_c10_unresolved_path_assigns_undefined_witness :
    extract ⟨0, "t0"⟩ [("id", .rstr "data.missing")]
        (.obj [("data", .obj [("id", .str "abc")])]) = [("id", .undef)]
    ∧ (objAssignAll [("id", .str "abc")]
        (extract ⟨0, "t0"⟩ [("id", .rstr "data.missing")]
          (.obj [("data", .obj [("id", .str "abc")])]))).lookup "id" = some .undef :=
  spec_c10_unresolved_path_assigns_undefined ⟨0, "t0"⟩ "id" "data.missing"
    (.obj [("data", .obj [("id", .str "abc")])]) [("id", .str "abc")] rfl rfl

/-- C3: `extract` isolates per-entry failures — with one throwing custom
function rule and one valid path rule (in either order) the result mapping
contains exactly the valid key's value, the throwing key is absent (and
merging cannot introduce it into the context), and no exception escapes
(`extract` is total and returns the partial mapping). -/
theorem spec_c3_extraction_isolation
    (env : Env) (kf kv : String) (f : JsValue → Except String JsValue)
    (p : String) (r : JsValue) (msg : String)
    (hf : f r = .error msg)
    (hb : builtinExtractor env p = none)
    (hne : kf ≠ kv) :
    extract env [(kf, .rfn f), (kv, .rstr p)] r = [(kv, extractByPath p r)]
    ∧ extract env [(kv, .rstr p), (kf, .rfn f)] r = [(kv, extractByPath p r)]
    ∧ kf ∉ objKeys (extract env [(kf, .rfn f), (kv, .rstr p)] r)
    ∧ (∀ ctx : Ctx, kf ∉ objKeys ctx →
        kf ∉ objKeys (objAssignAll ctx (extract env [(kf, .rfn f), (kv, .rstr p)] r))) := by
  have h1 : extract env [(kf, .rfn f), (kv, .rstr p)] r = [(kv, extractByPath p r)] := by
    simp [extract, evalRule, hf, hb, objAssign]
  have h2 : extract env [(kv, .rstr p), (kf, .rfn f)] r = [(kv, extractByPath p r)] := by
    simp [extract, evalRule, hf, hb, objAssign]
  refine ⟨h1, h2, ?_, ?_⟩
  · rw [h1]
    simp [objKeys, hne]
  · intro ctx hc hmem
    rw [h1] at hmem
    rcases objAssignAll_keys_cases hmem with hin | hin
    · exact hc hin
    · simp [objKeys] at hin
      exact hne hin

/-- Witness for C3: a throwing function next to the valid path `data.id`. -/
theorem spec_c3_extraction_isolation_witness :
    extract ⟨0, "t0"⟩ [("bad", .rfn fun _ => .error "boom"), ("good", .rstr "data.id")]
        (.obj [("data", .obj [("id", .str "abc")])])
      = [("good", extractByPath "data.id" (.obj [("data", .obj [("id", .str "abc")])]))]
    ∧ extract ⟨0, "t0"⟩ [("good", .rstr "data.id"), ("bad", .rfn fun _ => .error "boom")]
        (.obj [("data", .obj [("id", .str "abc")])])
      = [("good", extractByPath "data.id" (.obj [("data", .obj [("id", .str "abc")])]))]
    ∧ "bad" ∉ objKeys (extract ⟨0, "t0"⟩
        [("bad", .rfn fun _ => .error "boom"), ("good", .rstr "data.id")]
        (.obj [("data", .obj [("id", .str "abc")])]))
    ∧ (∀ ctx : Ctx, "bad" ∉ objKeys ctx →
        "bad" ∉ objKeys (objAssignAll ctx (extract ⟨0, "t0"⟩
          [("bad", .rfn fun _ => .error "boom"), ("good", .rstr "data.id")]
          (.obj [("data", .obj [("id", .str "abc")])])))) :=
  spec_c3_extraction_isolation ⟨0, "t0"⟩ "bad" "good" (fun _ => .error "boom")
    "data.id" (.obj [("data", .obj [("id", .str "abc")])]) "boom" rfl rfl (by decide)

/-- C7: validating an object spec is the logical AND of independently
validating each entry (first conjunct), short-circuiting to `false` as soon
as a key fails, whatever follows it (second conjunct); and the composite
`validators.and(status(200), hasField("data.id"))` is `false` against a
status-200 response lacking `data.id`, `false` against a status-404
response having it, and `true` only when both conjuncts hold (third
conjunct; `hasField` resolves its path against `response.data`). -/
theorem spec_c7_object_validation_is_and :
    (∀ (entries : List (String × VSpec)) (r : JsValue),
        Validator.validateObject entries r =
          entries.all fun kv => Validator.validate kv.2 r)
    ∧ (∀ (pre : List (String × VSpec)) (k : String) (v : VSpec)
          (post : List (String × VSpec)) (r : JsValue),
        Validator.validate v r = false →
        Validator.validateObject (pre ++ (k, v) :: post) r = false)
    ∧ (Validator.validate
          (.vfn (validators.and
            [.vfn (validators.status 200), .vfn (validators.hasField "data.id")]))
          (.obj [("status", .num 200), ("data", .obj [])]) = false
        ∧ Validator.validate
          (.vfn (validators.and
            [.vfn (validators.status 200), .vfn (validators.hasField "data.id")]))
          (.obj [("status", .num 404),
                 ("data", .obj [("data", .obj [("id", .str "x")])])]) = false
        ∧ Validator.validate
          (.vfn (validators.and
            [.vfn (validators.status 200), .vfn (validators.hasField "data.id")]))
          (.obj [("status", .num 200),
                 ("data", .obj [("data", .obj [("id", .str "x")])])]) = true) := by
  have hall : ∀ (entries : List (String × VSpec)) (r : JsValue),
      Validator.validateObject entries r =
        entries.all fun kv => Validator.validate kv.2 r := by
    intro entries r
    induction entries with
    | nil => rfl
    | cons hd tl ih =>
      cases hv : Validator.validate hd.2 r <;>
        simp [Validator.validateObject, hv, ih]
  refine ⟨hall, ?_, by decide, by decide, by decide⟩
  intro pre k v post r hv
  rw [hall]
  simp [List.all_append, hv]

/-- Witness for C7's short-circuit conjunct: a failing entry makes the
object spec validate to `false`. -/
theorem spec_c7_object_validation_is_and_witness :
    Validator.validateObject ([] ++ ("check", VSpec.vother .undef) :: []) .null = false :=
  spec_c7_object_validation_is_and.2.1 [] "check" (.vother .undef) [] .null rfl

theorem takeWhile_append_drop (p : Char → Bool) (l : List Char) :
    l.takeWhile p ++ l.drop (l.takeWhile p).length = l := by
  induction l with
  | nil => rfl
  | cons c rest ih =>
    by_cases hc : p c = true
    · simpa [List.takeWhile_cons, hc] using ih
    · simp [List.takeWhile_cons, hc]

theorem stringMk_toList (s : String) : String.mk s.toList = s := rfl

/-- If no placeholder key of `cs` is bound in the context, the scanner
returns the input unchanged (unresolved placeholders are kept verbatim and
non-placeholder text is copied). -/
theorem substChars_of_no_keys (ctx : Ctx) (cs : List Char)
    (h : ∀ key ∈ placeholderKeys cs, ctx.lookup key = none) :
    substChars ctx cs = cs := by
  induction cs using substChars.induct ctx with
  | case1 => simp [substChars]
  | case2 rest ident after hguard v hv ih =>
      exfalso
      have hkey : String.mk ident ∈ placeholderKeys ('{' :: rest) := by
        simp only [placeholderKeys, if_pos rfl, if_pos hguard]
        exact List.mem_cons_self _ _
      rw [h (String.mk ident) hkey] at hv
      cases hv
  | case3 rest ident after hguard hv ih =>
      have hkeys : ∀ key ∈ placeholderKeys (after.drop 1), ctx.lookup key = none := by
        intro key hk
        apply h
        simp only [placeholderKeys, if_pos rfl, if_pos hguard]
        exact List.mem_cons_of_mem _ hk
      have hrec := ih hkeys
      have hsplit : ident ++ after = rest := takeWhile_append_drop isIdentChar rest
      have hafter : after = '}' :: after.drop 1 := by
        cases hafter0 : after with
        | nil =>
          exfalso
          have := hguard.2
          rw [hafter0] at this
          simp at this
        | cons a as =>
          have := hguard.2
          rw [hafter0] at this
          simp only [List.headD_cons] at this
          rw [this]
          simp
      simp only [substChars, if_pos rfl, if_pos hguard, hv, hrec, if_true]
      rw [List.cons_eq_cons]
      refine ⟨rfl, ?_⟩
      calc ident ++ '}' :: after.drop 1 = ident ++ after := by rw [← hafter]
        _ = rest := hsplit
  | case4 rest ident after hguard ih =>
      have hkeys : ∀ key ∈ placeholderKeys rest, ctx.lookup key = none := by
        intro key hk
        apply h
        simp only [placeholderKeys, if_pos rfl, if_neg hguard]
        exact hk
      simp only [substChars, if_pos rfl, if_neg hguard, ih hkeys, if_true]
  | case5 c rest hc ih =>
      have hkeys : ∀ key ∈ placeholderKeys rest, ctx.lookup key = none := by
        intro key hk
        apply h
        simp only [placeholderKeys, if_neg hc]
        exact hk
      simp only [substChars, if_neg hc, ih hkeys]

/-- C5 counterexample: with context `{a: "\x7bb\x7d", b: "2"}` every
placeholder key of `"\x7ba\x7d"` (namely `a`) is present, yet applying
`substituteVariables` a second time to the result of the first application
changes it (`"\x7bb\x7d"` becomes `"2"`): substitution is not idempotent
once all placeholder keys are present, because substituted values can
themselves contain resolvable placeholders. -/
theorem spec_c5_idempotence_counterexample :
    (([("a", JsValue.str "\x7bb\x7d"), ("b", JsValue.str "2")] : Ctx).lookup "a").isSome = true
    ∧ substString [("a", .str "\x7bb\x7d"), ("b", .str "2")] "\x7ba\x7d" = "\x7bb\x7d"
    ∧ substString [("a", .str "\x7bb\x7d"), ("b", .str "2")]
        (substString [("a", .str "\x7bb\x7d"), ("b", .str "2")] "\x7ba\x7d") = "2"
    ∧ substString [("a", .str "\x7bb\x7d"), ("b", .str "2")]
        (substString [("a", .str "\x7bb\x7d"), ("b", .str "2")] "\x7ba\x7d")
      ≠ substString [("a", .str "\x7bb\x7d"), ("b", .str "2")] "\x7ba\x7d" := by
  have h1 : substString [("a", JsValue.str "\x7bb\x7d"), ("b", JsValue.str "2")] "\x7ba\x7d"
      = "\x7bb\x7d" := by
    simp [substString, substChars, isIdentChar, jsToString, List.lookup]
  have h2 : substString [("a", JsValue.str "\x7bb\x7d"), ("b", JsValue.str "2")] "\x7bb\x7d"
      = "2" := by
    simp [substString, substChars, isIdentChar, jsToString, List.lookup]
  refine ⟨rfl, h1, ?_, ?_⟩
  · rw [h1, h2]
  · rw [h1, h2]
    decide

/-- C5 (amended): a string with no `{..}` placeholders is returned
unchanged; a string all of whose placeholder keys are absent from the
context is returned with the literal placeholders intact; and applying
`substituteVariables` a second time leaves the result unchanged precisely
when the first result's placeholders are all unresolvable — merely having
all of the original string's placeholder keys in the context does NOT
suffice (the counterexample shows substituted values and surrounding text
can form new resolvable placeholders). -/
theorem spec_c5_substitution_idempotence :
    (∀ (ctx : Ctx) (s : String), placeholderKeys s.toList = [] → substString ctx s = s)
    ∧ (∀ (ctx : Ctx) (s : String),
        (∀ key ∈ placeholderKeys s.toList, ctx.lookup key = none) →
        substString ctx s = s)
    ∧ (∀ (ctx : Ctx) (s : String),
        (∀ key ∈ placeholderKeys (substString ctx s).toList, ctx.lookup key = none) →
        substString ctx (substString ctx s) = substString ctx s) := by
  have hb : ∀ (ctx : Ctx) (s : String),
      (∀ key ∈ placeholderKeys s.toList, ctx.lookup key = none) →
      substString ctx s = s := by
    intro ctx s hk
    show String.mk (substChars ctx s.toList) = s
    rw [substChars_of_no_keys ctx s.toList hk]
    exact stringMk_toList s
  refine ⟨?_, hb, ?_⟩
  · intro ctx s h0
    refine hb ctx s ?_
    rw [h0]
    intro key hk
    exact absurd hk (List.not_mem_nil key)
  · intro ctx s h
    exact hb ctx (substString ctx s) h

/-- Witness for C5 (amended): a placeholder whose key is absent stays
verbatim. -/
theorem spec_c5_substitution_idempotence_witness :
    substString [("x", JsValue.num 1)] "\x7by\x7d stays" = "\x7by\x7d stays" :=
  spec_c5_substitution_idempotence.2.1 [("x", .num 1)] "\x7by\x7d stays" (by
    intro key hk
    simp [placeholderKeys, isIdentChar] at hk
    subst hk
    rfl)

mutual
/-- Environment-independence of substitution on generator-free values. -/
theorem substituteVariables_genFree (env₁ env₂ : Env) (v : TVal) (ctx : Ctx)
    (h : genFree v = true) :
    substituteVariables env₁ v ctx = substituteVariables env₂ v ctx := by
  cases v with
  | tgen f ps => simp [genFree] at h
  | tarr xs =>
      have hl := substituteListGenFree env₁ env₂ xs ctx (by simpa [genFree] using h)
      simp only [substituteVariables]
      rw [hl]
  | tobj fs =>
      have hl := substituteFieldsGenFree env₁ env₂ fs ctx (by simpa [genFree] using h)
      simp only [substituteVariables]
      rw [hl]
  | tundef => simp only [substituteVariables]
  | tnull => simp only [substituteVariables]
  | tbool b => simp only [substituteVariables]
  | tnum n => simp only [substituteVariables]
  | tstr s => simp only [substituteVariables]
  termination_by (sizeOf v, 0)

/-- Environment-independence over array elements. -/
theorem substituteListGenFree (env₁ env₂ : Env) (xs : List TVal) (ctx : Ctx)
    (h : genFreeList xs = true) :
    substituteList env₁ xs ctx = substituteList env₂ xs ctx := by
  cases xs with
  | nil => simp only [substituteList]
  | cons x rest =>
      have hx : genFree x = true := by
        simp only [genFreeList, Bool.and_eq_true] at h
        exact h.1
      have hr : genFreeList rest = true := by
        simp only [genFreeList, Bool.and_eq_true] at h
        exact h.2
      simp only [substituteList]
      rw [substituteVariables_genFree env₁ env₂ x ctx hx,
        substituteListGenFree env₁ env₂ rest ctx hr]
  termination_by (sizeOf xs, 1)

/-- Environment-independence over object fields. -/
theorem substituteFieldsGenFree (env₁ env₂ : Env) (fs : List (String × TVal)) (ctx : Ctx)
    (h : genFreeFields fs = true) :
    substituteFields env₁ fs ctx = substituteFields env₂ fs ctx := by
  cases fs with
  | nil => simp only [substituteFields]
  | cons kv rest =>
      cases kv with
      | mk k x =>
        have hx : genFree x = true := by
          simp only [genFreeFields, Bool.and_eq_true] at h
          exact h.1
        have hr : genFreeFields rest = true := by
          simp only [genFreeFields, Bool.and_eq_true] at h
          exact h.2
        simp only [substituteFields]
        rw [substituteVariables_genFree env₁ env₂ x ctx hx,
          substituteFieldsGenFree env₁ env₂ rest ctx hr]
  termination_by (sizeOf fs, 1)
end

/-- C6 counterexample: `substituteVariables` invokes a `{func, params}`
generator object in place, and the library's generators read the ambient
clock and randomness — two invocations with the same value and context at
different ambient instants return different results, so the function is not
pure as claimed. -/
theorem spec_c6_purity_counterexample :
    substituteVariables ⟨1, "t"⟩ (.tgen (fun env _ => .tnum env.now) []) [] = .tnum 1
    ∧ substituteVariables ⟨2, "t"⟩ (.tgen (fun env _ => .tnum env.now) []) [] = .tnum 2
    ∧ substituteVariables ⟨1, "t"⟩ (.tgen (fun env _ => .tnum env.now) []) []
      ≠ substituteVariables ⟨2, "t"⟩ (.tgen (fun env _ => .tnum env.now) []) [] := by
  have h1 : substituteVariables ⟨1, "t"⟩ (.tgen (fun env _ => .tnum env.now) []) []
      = .tnum 1 := by
    simp [substituteVariables]
  have h2 : substituteVariables ⟨2, "t"⟩ (.tgen (fun env _ => .tnum env.now) []) []
      = .tnum 2 := by
    simp [substituteVariables]
  refine ⟨h1, h2, ?_⟩
  rw [h1, h2]
  intro heq
  exact absurd (TVal.tnum.inj heq) (by decide)

/-- C6 (amended): `substituteVariables(value, context)` never mutates its
inputs (the model is persistent by construction), and it is deterministic —
independent of the ambient environment — for every value free of deferred
generator-call objects; determinism fails only on `{func, params}` values
(see the counterexample). -/
theorem spec_c6_substitution_pure_when_generator_free :
    ∀ (env₁ env₂ : Env) (v : TVal) (ctx : Ctx), genFree v = true →
      substituteVariables env₁ v ctx = substituteVariables env₂ v ctx :=
  fun env₁ env₂ v ctx h => substituteVariables_genFree env₁ env₂ v ctx h

/-- Witness for C6 (amended): a generator-free object template substitutes
identically under two different ambient environments. -/
theorem spec_c6_substitution_pure_when_generator_free_witness :
    substituteVariables ⟨1, "t1"⟩ (.tobj [("u", .tstr "x")]) []
      = substituteVariables ⟨2, "t2"⟩ (.tobj [("u", .tstr "x")]) [] :=
  spec_c6_substitution_pure_when_generator_free ⟨1, "t1"⟩ ⟨2, "t2"⟩
    (.tobj [("u", .tstr "x")]) [] (by simp [genFree, genFreeFields, genFreeList])

theorem stepValidateExtract_state (env : Env) (R : Runner) (step : Step) (ctx : Ctx)
    (st : TState) (r : JsValue) :
    (stepValidateExtract env R step ctx st r).2.2 = st := by
  unfold stepValidateExtract
  dsimp only
  split
  · rfl
  · split <;> rfl

/-- C8: in dry-run mode the transport collaborator is never invoked — the
call counter, call log and reply oracle are untouched whatever the step
contains — the step works against the synthetic response with fixed status
200 and a `mock-id-<now>` identifier body, and the step's `validate` spec
is still evaluated against that synthetic response: a spec the synthetic
response fails rejects the step even in dry-run, while an accepted spec
lets the step return the synthetic response. -/
theorem spec_c8_dry_run_behavior
    (env : Env) (R : Runner) (step : Step) (ctx : Ctx) (st : TState)
    (hdry : R.dryRun = true) :
    ((executeHttpStep env R step ctx st).2.2.calls = st.calls
      ∧ (executeHttpStep env R step ctx st).2.2.log = st.log
      ∧ (executeHttpStep env R step ctx st).2.2.replies = st.replies)
    ∧ (mockResponse env).getProp "status" = .num 200
    ∧ ((mockResponse env).getProp "data").getProp "id"
        = .str ("mock-id-" ++ toString env.now)
    ∧ (step.transform = none →
        ∀ v, step.validate = some v → v.truthy = true →
          ∀ bval, validateResponse R v (mockResponse env) = .ok bval →
            ((bval.truthy = false →
              (executeHttpStep env R step ctx st).1
                = .error ("Validation failed for step: " ++ step.name))
            ∧ (bval.truthy = true →
              (executeHttpStep env R step ctx st).1 = .ok (mockResponse env)))) := by
  have hstate : ∀ ctx' r, (stepValidateExtract env R step ctx' st r).2.2 = st :=
    fun ctx' r => stepValidateExtract_state env R step ctx' st r
  have hsame : (executeHttpStep env R step ctx st).2.2 = st := by
    unfold executeHttpStep
    dsimp only
    split
    · rfl
    · simp only [hdry, if_true]
      exact hstate _ _
  have hmain : step.transform = none →
      executeHttpStep env R step ctx st =
        stepValidateExtract env R step ctx st (mockResponse env) := by
    intro htr
    unfold executeHttpStep
    rw [htr]
    simp only [hdry, if_true]
  refine ⟨⟨by rw [hsame], by rw [hsame], by rw [hsame]⟩, rfl, rfl, ?_⟩
  intro htr v hv hvt bval hval
  rw [hmain htr]
  constructor
  · intro hbf
    simp [stepValidateExtract, hv, hvt, hval, hbf]
  · intro hbt
    cases hex : step.extract <;> simp [stepValidateExtract, hv, hvt, hval, hbt, hex]

/-- Witness for C8: a dry-run step expecting status 201 fails against the
synthetic status-200 response, and the transport oracle is untouched. -/
theorem spec_c8_dry_run_behavior_witness :
    (executeHttpStep wEnv wDryRunner wStep201 [] wTransport).2.2.calls = wTransport.calls
    ∧ (executeHttpStep wEnv wDryRunner wStep201 [] wTransport).1
        = .error ("Validation failed for step: " ++ wStep201.name) :=
  ⟨(spec_c8_dry_run_behavior wEnv wDryRunner wStep201 [] wTransport rfl).1.1,
   (((spec_c8_dry_run_behavior wEnv wDryRunner wStep201 [] wTransport rfl).2.2.2
      rfl (.vfn (validators.status 201)) rfl rfl (.bool false) rfl).1 rfl)⟩

theorem keysMono_refl (c : Ctx) : keysMono c c := fun _ hx => hx

theorem keysMono_trans {a b c : Ctx} (h1 : keysMono a b) (h2 : keysMono b c) :
    keysMono a c := fun x hx => h2 x (h1 x hx)

theorem lookup_mem {α β : Type} [BEq α] [LawfulBEq α] {l : List (α × β)} {k : α} {v : β}
    (h : l.lookup k = some v) : (k, v) ∈ l := by
  induction l with
  | nil => simp [List.lookup] at h
  | cons hd tl ih =>
    rw [List.lookup] at h
    cases hk : (k == hd.1) with
    | true =>
      rw [hk] at h
      simp only [Option.some.injEq] at h
      rw [List.mem_cons]
      left
      rw [eq_of_beq hk, ← h]
    | false =>
      rw [hk] at h
      exact List.mem_cons_of_mem _ (ih h)

theorem runStepMWs_keysMono {mws : List (Step → Ctx → Except String Ctx)}
    (hm : ∀ f ∈ mws, ∀ s c c', f s c = .ok c' → keysMono c c')
    (step : Step) (ctx : Ctx) : keysMono ctx (runStepMWs mws step ctx).1 := by
  induction mws generalizing ctx with
  | nil => exact keysMono_refl ctx
  | cons f fs ih =>
    cases hf : f step ctx with
    | ok c' =>
      simp only [runStepMWs, hf]
      exact keysMono_trans (hm f (List.mem_cons_self _ _) step ctx c' hf)
        (ih (fun g hg => hm g (List.mem_cons_of_mem _ hg)) c')
    | error e =>
      simp only [runStepMWs, hf]
      exact keysMono_refl ctx

theorem runAfterStepMWs_keysMono {mws : List (Step → Ctx → JsValue → Except String Ctx)}
    (hm : ∀ f ∈ mws, ∀ s c res c', f s c res = .ok c' → keysMono c c')
    (step : Step) (ctx : Ctx) (res : JsValue) :
    keysMono ctx (runAfterStepMWs mws step ctx res).1 := by
  induction mws generalizing ctx with
  | nil => exact keysMono_refl ctx
  | cons f fs ih =>
    cases hf : f step ctx res with
    | ok c' =>
      simp only [runAfterStepMWs, hf]
      exact keysMono_trans (hm f (List.mem_cons_self _ _) step ctx res c' hf)
        (ih (fun g hg => hm g (List.mem_cons_of_mem _ hg)) c')
    | error e =>
      simp only [runAfterStepMWs, hf]
      exact keysMono_refl ctx

theorem runAfterScenMWs_keysMono
    {mws : List (Scenario → Ctx → List StepResult → Except String Ctx)}
    (hm : ∀ f ∈ mws, ∀ sc c res c', f sc c res = .ok c' → keysMono c c')
    (sc : Scenario) (ctx : Ctx) (results : List StepResult) :
    keysMono ctx (runAfterScenMWs mws sc ctx results).1 := by
  induction mws generalizing ctx with
  | nil => exact keysMono_refl ctx
  | cons f fs ih =>
    cases hf : f sc ctx results with
    | ok c' =>
      simp only [runAfterScenMWs, hf]
      exact keysMono_trans (hm f (List.mem_cons_self _ _) sc ctx results c' hf)
        (ih (fun g hg => hm g (List.mem_cons_of_mem _ hg)) c')
    | error e =>
      simp only [runAfterScenMWs, hf]
      exact keysMono_refl ctx

theorem stepValidateExtract_keysMono (env : Env) (R : Runner) (step : Step) (ctx : Ctx)
    (st : TState) (r : JsValue) :
    keysMono ctx (stepValidateExtract env R step ctx st r).2.1 := by
  unfold stepValidateExtract
  dsimp only
  split
  · exact keysMono_refl ctx
  · split
    · exact fun x hx => objAssignAll_keys_mono hx
    · exact keysMono_refl ctx

theorem executeHttpStep_keysMono (env : Env) (R : Runner) (step : Step) (ctx : Ctx)
    (st : TState) : keysMono ctx (executeHttpStep env R step ctx st).2.1 := by
  unfold executeHttpStep
  dsimp only
  split
  · exact keysMono_refl ctx
  · split
    · exact stepValidateExtract_keysMono env R step ctx _ _
    · split
      · exact keysMono_refl ctx
      · exact stepValidateExtract_keysMono env R step ctx _ _

theorem executeStep_keysMono (env : Env) (R : Runner)
    (hst : ∀ h ∈ R.stepTypes, ∀ step c v c', h.2 step c = .ok (v, c') → keysMono c c')
    (step : Step) (ctx : Ctx) (st : TState) :
    keysMono ctx (executeStep env R step ctx st).2.1 := by
  unfold executeStep
  cases htype : step.stype with
  | none => exact executeHttpStep_keysMono env R step ctx st
  | some t =>
    dsimp only
    by_cases ht : t ≠ ""
    · rw [if_pos ht]
      cases hl : R.stepTypes.lookup t with
      | none => exact executeHttpStep_keysMono env R step ctx st
      | some handler =>
        dsimp only
        cases hh : handler step ctx with
        | ok pair =>
          cases pair with
          | mk v c' =>
            dsimp only
            exact hst (t, handler) (lookup_mem hl) step ctx v c' hh
        | error e => exact keysMono_refl ctx
    · rw [if_neg ht]
      exact executeHttpStep_keysMono env R step ctx st

theorem runStepsAux_keysMono (env : Env) (R : Runner) (hmono : runnerKeysMono R)
    (steps : List Step) (idx : Nat) (ctx : Ctx) (st : TState) (acc : List StepResult) :
    keysMono ctx (runStepsAux env R steps idx ctx st acc).2.1 := by
  induction steps generalizing idx ctx st acc with
  | nil => exact keysMono_refl ctx
  | cons step rest ih =>
    obtain ⟨hbefore, hafter, hstt, _⟩ := hmono
    have h1 : keysMono ctx (runStepMWs R.beforeStepMWs step ctx).1 :=
      runStepMWs_keysMono hbefore step ctx
    rw [runStepsAux]
    cases hmw : runStepMWs R.beforeStepMWs step ctx with
    | mk ctx1 e1 =>
      cases e1 with
      | some e =>
        dsimp only
        rw [hmw] at h1
        exact h1
      | none =>
        dsimp only
        rw [hmw] at h1
        have h2 : keysMono ctx1 (executeStep env R step ctx1 st).2.1 :=
          executeStep_keysMono env R hstt step ctx1 st
        cases hex : executeStep env R step ctx1 st with
        | mk outcome rest2 =>
          cases rest2 with
          | mk ctx2 st2 =>
            rw [hex] at h2
            cases outcome with
            | error e =>
              dsimp only
              exact keysMono_trans h1 h2
            | ok result =>
              dsimp only
              have h3 : keysMono ctx2 (runAfterStepMWs R.afterStepMWs step ctx2 result).1 :=
                runAfterStepMWs_keysMono hafter step ctx2 result
              cases hmw2 : runAfterStepMWs R.afterStepMWs step ctx2 result with
              | mk ctx3 e3 =>
                rw [hmw2] at h3
                cases e3 with
                | some e =>
                  dsimp only
                  exact keysMono_trans h1 (keysMono_trans h2 h3)
                | none =>
                  dsimp only
                  exact keysMono_trans h1 (keysMono_trans h2 (keysMono_trans h3
                    (ih (idx + 1) ctx3 st2 _)))

theorem objAssign_keys_self (o : List (String × JsValue)) (k : String) (v : JsValue) :
    k ∈ objKeys (objAssign o k v) := by
  induction o with
  | nil => simp [objAssign, objKeys]
  | cons hd tl ih =>
    by_cases hk : hd.1 = k
    · simp [objAssign, hk, objKeys]
    · simp only [objAssign, hk, ite_false, objKeys, List.map_cons, List.mem_cons]
      exact Or.inr ih

theorem objAssignAll_keys_src {src : List (String × JsValue)}
    {o : List (String × JsValue)} {x : String} (h : x ∈ objKeys src) :
    x ∈ objKeys (objAssignAll o src) := by
  induction src generalizing o with
  | nil => simp [objKeys] at h
  | cons hd tl ih =>
    simp only [objKeys, List.map_cons, List.mem_cons] at h
    simp only [objAssignAll, List.foldl_cons]
    rcases h with hx | hmem
    · subst hx
      exact objAssignAll_keys_mono (objAssign_keys_self o _ hd.2)
    · exact ih hmem

/-- C9: throughout a scenario run the context grows monotonically — each
step's extraction merge only adds or overwrites keys — so after any single
step (`executeHttpStep`, `executeStep`) and after any run of the step loop
the context keys contain the keys before it; and a whole
`runScenarioConfig` run ends with a context whose keys contain all
caller-supplied initial variable names.  Hooks and custom handlers receive
the context too, so the statement assumes the registered ones never remove
keys (`runnerKeysMono`). -/
theorem spec_c9_context_monotone (env : Env) (R : Runner) (hmono : runnerKeysMono R) :
    (∀ step ctx st, keysMono ctx (executeHttpStep env R step ctx st).2.1)
    ∧ (∀ step ctx st, keysMono ctx (executeStep env R step ctx st).2.1)
    ∧ (∀ steps idx ctx st acc, keysMono ctx (runStepsAux env R steps idx ctx st acc).2.1)
    ∧ (∀ scenario vars st,
        (runScenarioConfig env R scenario vars st).beforeScenarioError = none →
        ∀ x ∈ objKeys vars,
          x ∈ objKeys (runScenarioConfig env R scenario vars st).context) := by
  refine ⟨fun step ctx st => executeHttpStep_keysMono env R step ctx st,
    fun step ctx st => executeStep_keysMono env R hmono.2.2.1 step ctx st,
    fun steps idx ctx st acc => runStepsAux_keysMono env R hmono steps idx ctx st acc,
    ?_⟩
  intro scenario vars st hbs x hx
  unfold runScenarioConfig at hbs ⊢
  cases hmw : runScenMWs R.beforeScenarioMWs scenario with
  | some e =>
    rw [hmw] at hbs
    cases hbs
  | none =>
    dsimp only [hmw]
    have hx0 : x ∈ objKeys (objAssignAll [] vars) := objAssignAll_keys_src hx
    have hloop := runStepsAux_keysMono env R hmono scenario.steps 0
      (objAssignAll [] vars) st []
    cases hrun : runStepsAux env R scenario.steps 0 (objAssignAll [] vars) st [] with
    | mk results rest1 =>
      cases rest1 with
      | mk ctx1 rest2 =>
        cases rest2 with
        | mk st1 failedAt =>
          rw [hrun] at hloop
          have hx1 : x ∈ objKeys ctx1 := hloop x hx0
          cases failedAt with
          | some kn =>
            cases kn with
            | mk k name => exact hx1
          | none =>
            dsimp only
            have hafter := runAfterScenMWs_keysMono hmono.2.2.2 scenario ctx1 results
            cases hmw2 : runAfterScenMWs R.afterScenarioMWs scenario ctx1 results with
            | mk ctx2 e2 =>
              rw [hmw2] at hafter
              cases e2 with
              | some e => exact hafter x hx1
              | none => exact hafter x hx1

/-- Witness for C9: a run of the no-registration runner keeps the seeded
variable in the final context. -/
theorem spec_c9_context_monotone_witness :
    "seed" ∈ objKeys (runScenarioConfig wEnv wRunner wScenarioOk
      [("seed", .num 7)] wTransport).context :=
  (spec_c9_context_monotone wEnv wRunner
      ⟨fun f hf => absurd hf (List.not_mem_nil f),
       fun f hf => absurd hf (List.not_mem_nil f),
       fun h hh => absurd hh (List.not_mem_nil h),
       fun f hf => absurd hf (List.not_mem_nil f)⟩).2.2.2
    wScenarioOk [("seed", .num 7)] wTransport rfl "seed" (by simp [objKeys])

theorem runStepsAux_acc (env : Env) (R : Runner) (steps : List Step) (idx : Nat)
    (ctx : Ctx) (st : TState) (acc : List StepResult) :
    runStepsAux env R steps idx ctx st acc
      = (acc ++ (runStepsAux env R steps idx ctx st []).1,
         (runStepsAux env R steps idx ctx st []).2) := by
  induction steps generalizing idx ctx st acc with
  | nil =>
    rw [runStepsAux, runStepsAux]
    simp
  | cons step rest ih =>
    rw [runStepsAux, runStepsAux]
    rcases hmw : runStepMWs R.beforeStepMWs step ctx with ⟨ctx1, e1⟩
    cases e1 with
    | some e => simp
    | none =>
      dsimp only
      rcases hex : executeStep env R step ctx1 st with ⟨outcome, ctx2, st2⟩
      cases outcome with
      | error e => simp
      | ok result =>
        dsimp only
        rcases hmw2 : runAfterStepMWs R.afterStepMWs step ctx2 result with ⟨ctx3, e3⟩
        cases e3 with
        | some e => simp
        | none =>
          dsimp only
          simp only [List.nil_append]
          have h1 := ih (idx + 1) ctx3 st2
            (acc ++ [StepResult.mk step.name true (some result) none])
          have h2 := ih (idx + 1) ctx3 st2 [StepResult.mk step.name true (some result) none]
          rw [h1, h2]
          simp

theorem runAfterStepMWs_noThrow {mws : List (Step → Ctx → JsValue → Except String Ctx)}
    (hm : ∀ f ∈ mws, ∀ step c res, ∃ c', f step c res = .ok c')
    (step : Step) (c : Ctx) (res : JsValue) :
    ∃ c', runAfterStepMWs mws step c res = (c', none) := by
  induction mws generalizing c with
  | nil => exact ⟨c, rfl⟩
  | cons f fs ih =>
    obtain ⟨c', hf⟩ := hm f (List.mem_cons_self _ _) step c res
    have := ih (fun g hg => hm g (List.mem_cons_of_mem _ hg)) c'
    simpa [runAfterStepMWs, hf] using this

theorem runStepsAux_fail_spec (env : Env) (R : Runner)
    (hmw : ∀ f ∈ R.afterStepMWs, ∀ step c res, ∃ c', f step c res = .ok c') :
    ∀ (steps : List Step) (idx : Nat) (ctx : Ctx) (st : TState) (k : Nat) (name : String),
      (runStepsAux env R steps idx ctx st []).2.2.2 = some (k, name) →
      ∃ (j : Nat) (pre : List StepResult) (e : String) (stp : Step),
        k = idx + j + 1
        ∧ steps.get? j = some stp ∧ stp.name = name
        ∧ (runStepsAux env R steps idx ctx st []).1
            = pre ++ [{ step := name, success := false, result := none, error := some e }]
        ∧ pre.length = j
        ∧ (∀ r ∈ pre, r.success = true)
        ∧ (∀ tail, runStepsAux env R (steps.take (j + 1) ++ tail) idx ctx st []
            = runStepsAux env R steps idx ctx st []) := by
  intro steps
  induction steps with
  | nil =>
    intro idx ctx st k name hfa
    simp [runStepsAux] at hfa
  | cons step rest ih =>
    intro idx ctx st k name hfa
    cases hmw1 : runStepMWs R.beforeStepMWs step ctx with
    | mk ctx1 e1 =>
      cases e1 with
      | some e =>
        have hstep : runStepsAux env R (step :: rest) idx ctx st []
            = ([{ step := step.name, success := false, result := none, error := some e }],
               ctx1, st, some (idx + 1, step.name)) := by
          rw [runStepsAux, hmw1]
          rfl
        rw [hstep] at hfa
        dsimp only at hfa
        injection hfa with hfa2
        injection hfa2 with hk hname
        refine ⟨0, [], e, step, by omega, by simp, hname, ?_, rfl, by simp, ?_⟩
        · rw [hstep, hname]
          rfl
        · intro tail
          rw [hstep]
          simp only [List.take_succ_cons, List.take_zero, List.nil_append,
            List.cons_append]
          rw [runStepsAux, hmw1]
          rfl
      | none =>
        cases hex : executeStep env R step ctx1 st with
        | mk outcome r2 =>
          obtain ⟨ctx2, st2⟩ := r2
          cases outcome with
          | error e =>
            have hstep : runStepsAux env R (step :: rest) idx ctx st []
                = ([{ step := step.name, success := false, result := none,
                      error := some e }],
                   ctx2, st2, some (idx + 1, step.name)) := by
              rw [runStepsAux, hmw1]
              dsimp only
              rw [hex]
              rfl
            rw [hstep] at hfa
            dsimp only at hfa
            injection hfa with hfa2
            injection hfa2 with hk hname
            refine ⟨0, [], e, step, by omega, by simp, hname, ?_, rfl, by simp, ?_⟩
            · rw [hstep, hname]
              rfl
            · intro tail
              rw [hstep]
              simp only [List.take_succ_cons, List.take_zero, List.nil_append,
                List.cons_append]
              rw [runStepsAux, hmw1]
              dsimp only
              rw [hex]
              rfl
          | ok result =>
            obtain ⟨ctx3, hmw2⟩ := runAfterStepMWs_noThrow hmw step ctx2 result
            have hstep : runStepsAux env R (step :: rest) idx ctx st []
                = runStepsAux env R rest (idx + 1) ctx3 st2
                    [{ step := step.name, success := true, result := some result,
                       error := none }] := by
              rw [runStepsAux, hmw1]
              dsimp only
              rw [hex]
              dsimp only
              rw [hmw2]
              rfl
            have hsplit : runStepsAux env R (step :: rest) idx ctx st []
                = ([{ step := step.name, success := true, result := some result,
                      error := none }]
                    ++ (runStepsAux env R rest (idx + 1) ctx3 st2 []).1,
                   (runStepsAux env R rest (idx + 1) ctx3 st2 []).2) := by
              rw [hstep, runStepsAux_acc]
            rw [hsplit] at hfa
            dsimp only at hfa
            obtain ⟨j', pre', e', stp', hkeq, hget, hname, hres, hlen, hsucc, htail⟩ :=
              ih (idx + 1) ctx3 st2 k name hfa
            refine ⟨j' + 1,
              { step := step.name, success := true, result := some result,
                error := none } :: pre', e', stp', by omega, by simpa using hget,
              hname, ?_, by simp [hlen], ?_, ?_⟩
            · rw [hsplit]
              dsimp only
              rw [hres]
              simp
            · intro r hr
              rcases List.mem_cons.mp hr with hr1 | hr2
              · rw [hr1]
              · exact hsucc r hr2
            · intro tail
              have hstepT : runStepsAux env R ((step :: rest).take (j' + 1 + 1) ++ tail)
                  idx ctx st []
                  = runStepsAux env R (rest.take (j' + 1) ++ tail) (idx + 1) ctx3 st2
                      [{ step := step.name, success := true, result := some result,
                         error := none }] := by
                simp only [List.take_succ_cons, List.cons_append]
                rw [runStepsAux, hmw1]
                dsimp only
                rw [hex]
                dsimp only
                rw [hmw2]
                rfl
              rw [hstepT, runStepsAux_acc, htail tail, hsplit]

/-- C1: when a scenario run aborts at step `k` (1-indexed, named `name`),
the result list has exactly `k` entries — the first `k − 1` marked success
and the `k`-th marked failure for that step — the failing step is the
`k`-th of the scenario, the run surfaces the single error
`Scenario failed at step k: name`, and no step after `k` executes: the step
loop computes the same outcome whatever steps follow the first `k`.
`afterStep` hooks are assumed not to throw (a throwing `afterStep` hook
fails a step that already recorded a success entry, which is outside the
claim's "fails validation or dispatch" premise). -/
theorem spec_c1_fail_fast (env : Env) (R : Runner) (scenario : Scenario) (vars : Ctx)
    (st : TState) (k : Nat) (name : String)
    (hmw : ∀ f ∈ R.afterStepMWs, ∀ step c res, ∃ c', f step c res = .ok c')
    (hfail : (runScenarioConfig env R scenario vars st).failedAt = some (k, name)) :
    ∃ (pre : List StepResult) (e : String) (stp : Step),
      (runScenarioConfig env R scenario vars st).results
          = pre ++ [{ step := name, success := false, result := none, error := some e }]
      ∧ (runScenarioConfig env R scenario vars st).results.length = k
      ∧ pre.length = k - 1
      ∧ (∀ r ∈ pre, r.success = true)
      ∧ 1 ≤ k ∧ k ≤ scenario.steps.length
      ∧ scenario.steps.get? (k - 1) = some stp ∧ stp.name = name
      ∧ (runScenarioConfig env R scenario vars st).outcome
          = .error ("Scenario failed at step " ++ toString k ++ ": " ++ name)
      ∧ (∀ tail, runStepsAux env R (scenario.steps.take k ++ tail) 0
            (objAssignAll [] vars) st []
          = runStepsAux env R scenario.steps 0 (objAssignAll [] vars) st []) := by
  unfold runScenarioConfig at hfail
  cases hbs : runScenMWs R.beforeScenarioMWs scenario with
  | some e =>
    rw [hbs] at hfail
    cases hfail
  | none =>
    rw [hbs] at hfail
    dsimp only at hfail
    rcases hrun : runStepsAux env R scenario.steps 0 (objAssignAll [] vars) st []
      with ⟨results, ctx1, st1, fa⟩
    rw [hrun] at hfail
    cases fa with
    | none =>
      dsimp only at hfail
      rcases hmw2 : runAfterScenMWs R.afterScenarioMWs scenario ctx1 results
        with ⟨ctx2, e2⟩
      rw [hmw2] at hfail
      cases e2 <;> dsimp only at hfail <;> cases hfail
    | some kn =>
      obtain ⟨k', name'⟩ := kn
      dsimp only at hfail
      injection hfail with hkn
      injection hkn with hk hname
      rw [hk, hname] at hrun
      have hout : runScenarioConfig env R scenario vars st
          = { outcome := .error ("Scenario failed at step " ++ toString k ++ ": " ++ name),
              results := results, context := ctx1, state := st1,
              beforeScenarioError := none, failedAt := some (k, name),
              afterScenarioRan := false, afterScenarioError := none,
              report := none, reporterRuns := [] } := by
        unfold runScenarioConfig
        rw [hbs]
        dsimp only
        rw [hrun]
      have hfa : (runStepsAux env R scenario.steps 0 (objAssignAll [] vars) st []).2.2.2
          = some (k, name) := by
        rw [hrun]
      obtain ⟨j, pre, e, stp, hkeq, hget, hnm, hres, hlen, hsucc, htail⟩ :=
        runStepsAux_fail_spec env R hmw scenario.steps 0 (objAssignAll [] vars) st
          k name hfa
      rw [hrun] at hres
      dsimp only at hres
      obtain ⟨hjlt, -⟩ := List.get?_eq_some.mp hget
      have hj : j = k - 1 := by omega
      refine ⟨pre, e, stp, ?_, ?_, by omega, hsucc, by omega, by omega, ?_, hnm, ?_, ?_⟩
      · rw [hout]
        exact hres
      · rw [hout]
        dsimp only
        rw [hres]
        simp [hlen]
        omega
      · rw [← hj]
        exact hget
      · rw [hout]
      · intro tail
        have h := htail tail
        have hjk : j + 1 = k := by omega
        rw [hjk] at h
        rw [hk, hname, ← hrun]
        exact h

/-- Witness for C1: a two-step scenario whose first step fails validation
yields one result entry and the error naming step 1. -/
theorem spec_c1_fail_fast_witness :
    (runScenarioConfig wEnv wRunner wScenarioFail [] wTransport).results.length = 1
    ∧ (runScenarioConfig wEnv wRunner wScenarioFail [] wTransport).outcome
        = .error ("Scenario failed at step " ++ toString 1 ++ ": " ++ "s1") := by
  obtain ⟨pre, e, stp, hres, hlen, hprelen, hsucc, hk1, hk2, hget, hnm, hout, htail⟩ :=
    spec_c1_fail_fast wEnv wRunner wScenarioFail [] wTransport 1 "s1"
      (fun f hf => absurd hf (List.not_mem_nil f)) rfl
  exact ⟨hlen, hout⟩

/-- C2 counterexample: a scenario whose first step fails — run on a runner
with a registered reporter — ends with the `afterScenario` hook point never
reached, no report bundle built and no reporter invoked: the claim that
hooks and reporters run after every run including failed ones is false on
the code, whose step-failure throw propagates past both. -/
theorem spec_c2_counterexample :
    (runScenarioConfig wEnv wReporterRunner wScenarioFail [] wTransport).afterScenarioRan
        = false
    ∧ (runScenarioConfig wEnv wReporterRunner wScenarioFail [] wTransport).report = none
    ∧ (runScenarioConfig wEnv wReporterRunner wScenarioFail [] wTransport).reporterRuns = []
    ∧ wReporterRunner.reporters.length = 1
    ∧ (runScenarioConfig wEnv wReporterRunner wScenarioFail [] wTransport).outcome
        = .error ("Scenario failed at step " ++ toString 1 ++ ": " ++ "s1") :=
  ⟨rfl, rfl, rfl, rfl, rfl⟩

/-- C2 (amended): `afterScenario` hooks and reporters are invoked only
after runs in which every step succeeded — a step failure throws past both
(see the counterexample).  When the step loop completes without failure the
hook point is reached with the full result list and final context, and if
no `afterScenario` hook itself throws, every registered reporter receives
the `{scenarioName, results, context, timestamp, summary}` bundle and the
run returns normally (reporter failures are caught and never fail the
run). -/
theorem spec_c2_reporting_only_after_success
    (env : Env) (R : Runner) (scenario : Scenario) (vars : Ctx) (st : TState)
    (h1 : (runScenarioConfig env R scenario vars st).beforeScenarioError = none)
    (h2 : (runScenarioConfig env R scenario vars st).failedAt = none) :
    (runScenarioConfig env R scenario vars st).afterScenarioRan = true
    ∧ ((runScenarioConfig env R scenario vars st).afterScenarioError = none →
        (runScenarioConfig env R scenario vars st).report
          = some { scenarioName := scenario.name,
                   results := (runScenarioConfig env R scenario vars st).results,
                   context := (runScenarioConfig env R scenario vars st).context,
                   timestamp := env.iso,
                   summary := {
                     total := (runScenarioConfig env R scenario vars st).results.length,
                     successful :=
                       ((runScenarioConfig env R scenario vars st).results.filter
                         fun r => r.success).length,
                     failed :=
                       ((runScenarioConfig env R scenario vars st).results.filter
                         fun r => !r.success).length } }
        ∧ (runScenarioConfig env R scenario vars st).reporterRuns.length
            = R.reporters.length
        ∧ (runScenarioConfig env R scenario vars st).outcome = .ok ()) := by
  unfold runScenarioConfig at h1 h2
  cases hbs : runScenMWs R.beforeScenarioMWs scenario with
  | some e =>
    rw [hbs] at h1
    cases h1
  | none =>
    rw [hbs] at h2
    dsimp only at h2
    rcases hrun : runStepsAux env R scenario.steps 0 (objAssignAll [] vars) st []
      with ⟨results, ctx1, st1, fa⟩
    rw [hrun] at h2
    cases fa with
    | some kn =>
      obtain ⟨k', n'⟩ := kn
      cases h2
    | none =>
      rcases hmw2 : runAfterScenMWs R.afterScenarioMWs scenario ctx1 results
        with ⟨ctx2, e2⟩
      cases e2 with
      | some e =>
        have hout : runScenarioConfig env R scenario vars st
            = { outcome := .error e, results := results, context := ctx2, state := st1,
                beforeScenarioError := none, failedAt := none,
                afterScenarioRan := true, afterScenarioError := some e,
                report := none, reporterRuns := [] } := by
          unfold runScenarioConfig
          rw [hbs]
          dsimp only
          rw [hrun]
          dsimp only
          rw [hmw2]
        rw [hout]
        refine ⟨rfl, ?_⟩
        intro hae
        cases hae
      | none =>
        have hout : runScenarioConfig env R scenario vars st
            = { outcome := .ok (), results := results, context := ctx2, state := st1,
                beforeScenarioError := none, failedAt := none,
                afterScenarioRan := true, afterScenarioError := none,
                report := some (generateReports env R scenario.name results ctx2).1,
                reporterRuns := (generateReports env R scenario.name results ctx2).2 } := by
          unfold runScenarioConfig
          rw [hbs]
          dsimp only
          rw [hrun]
          dsimp only
          rw [hmw2]
        rw [hout]
        refine ⟨rfl, fun _ => ⟨?_, ?_, rfl⟩⟩
        · simp [generateReports]
        · simp [generateReports]

/-- Witness for C2 (amended): a successful run with a registered reporter
reaches the hook point and invokes the reporter. -/
theorem spec_c2_reporting_only_after_success_witness :
    (runScenarioConfig wEnv wReporterRunner wScenarioOk [] wTransport).afterScenarioRan
        = true
    ∧ (runScenarioConfig wEnv wReporterRunner wScenarioOk [] wTransport).reporterRuns.length
        = wReporterRunner.reporters.length := by
  obtain ⟨ha, hb⟩ := spec_c2_reporting_only_after_success wEnv wReporterRunner
    wScenarioOk [] wTransport rfl rfl
  exact ⟨ha, (hb rfl).2.1⟩

end ApiSeqRunner
